import Mathlib

/-!
# Verification of the proof-of-sql-verifier core

A shallow embedding of the HorizenLabs `proof-of-sql-verifier` crate:

* `src/pubs.rs` — the `DoryPublicInput` bundle with its custom
  `into_bytes` / `from_bytes` wire codec;
* `src/serde.rs` — the serde-derived result-table decoder
  (`OwnedTableDef` with `MapPreventDuplicates`, and
  `TryFrom<RaggedTable> for OwnedTable`);
* `src/verification_key.rs` — the `VerificationKey` wrapper with
  `try_from` / `to_bytes` / `serialized_size`;
* `src/verify_generic.rs` / `src/verify.rs` — the verification
  consistency engine `verify_proof`.

Machine bytes are modelled as natural numbers, byte strings as
`List Nat`, and the byte-stream deserializers as functions
`List Nat → Option (α × List Nat)` returning the decoded value plus the
unconsumed remainder of the stream (mirroring Rust's cursor-based
readers).  Rust machine integers are modelled as `Int`/`Nat` with
explicit two's-complement encodings of the relevant width.

External collaborator types (the query plan, the cryptographic
commitment values, group elements of the pairing curve, the scalar
field) are opaque to the crate; they are modelled by concrete
serializable stand-ins whose wire codecs satisfy exactly the stream
discipline the crate relies on (a serializer followed by a
deserializer on the same stream returns the original value and leaves
the remaining bytes untouched).  The external cryptographic verifier
(`VerifiableQueryResult::verify`) is an opaque capability and is
passed to the engine as an explicit function parameter.
-/

namespace PoSQL

/-! ## Little-endian byte encodings -/

/-- Little-endian base-256 encoding of `n` into exactly `w` bytes
(the encoding of `n % 256^w`, as a machine cast would produce). -/
def natLE : Nat → Nat → List Nat
  | 0, _ => []
  | w + 1, n => n % 256 :: natLE w (n / 256)

/-- Read a little-endian base-256 byte string back as a number. -/
def leNat : List Nat → Nat
  | [] => 0
  | b :: bs => b + 256 * leNat bs

/-- Two's-complement encoding of an integer into `w` bytes
(little-endian), as Rust's `iN` types serialize. -/
def intLE (w : Nat) (z : Int) : List Nat :=
  natLE w (z % ((2 : Int) ^ (8 * w))).toNat

/-- Decode `w` little-endian bytes as a two's-complement signed
integer. -/
def leInt (w : Nat) (bs : List Nat) : Int :=
  if leNat bs < 2 ^ (8 * w - 1) then (leNat bs : Int)
  else (leNat bs : Int) - (2 : Int) ^ (8 * w)

/-- Range of a `w`-byte two's-complement integer. -/
def intFits (w : Nat) (z : Int) : Prop :=
  -(2 ^ (8 * w - 1)) ≤ z ∧ z < 2 ^ (8 * w - 1)

instance (w : Nat) (z : Int) : Decidable (intFits w z) := by
  unfold intFits; infer_instance

/-! ## Byte-stream readers

A reader consumes a prefix of a byte stream and returns the decoded
value together with the unconsumed remainder, or `none` on a decode
failure (including reaching the end of the stream), mirroring
`bincode::deserialize_from(&mut cursor)` / ark's
`CanonicalDeserialize` on an `std::io::Cursor`. -/

/-- The type of byte-stream readers. -/
def Reader (α : Type) : Type := List Nat → Option (α × List Nat)

/-- Reader returning a constant without consuming input. -/
def rdPure {α : Type} (a : α) : Reader α := fun s => some (a, s)

/-- Reader that always fails (a decode error). -/
def rdFail {α : Type} : Reader α := fun _ => none

/-- Sequencing of readers: run the first, feed the remainder into the
continuation. -/
def rdBind {α β : Type} (r : Reader α) (f : α → Reader β) : Reader β :=
  fun s =>
    match r s with
    | none => none
    | some (a, s1) => f a s1

/-- Read exactly `w` raw bytes, failing if fewer remain. -/
def readBytes (w : Nat) : Reader (List Nat) := fun s =>
  if w ≤ s.length then some (s.take w, s.drop w) else none

/-- Read a fixed number of repetitions of a reader. -/
def readN {α : Type} (r : Reader α) : Nat → Reader (List α)
  | 0 => rdPure []
  | n + 1 =>
    rdBind r fun a => rdBind (readN r n) fun as => rdPure (a :: as)

/-- Read a `u64` (8 bytes little-endian), as `bincode` (legacy
fixed-int config) and `ark-serialize` encode lengths and `usize`. -/
def readU64 : Reader Nat :=
  rdBind (readBytes 8) fun b => rdPure (leNat b)

/-- Read a `u32` (4 bytes little-endian). -/
def readU32 : Reader Nat :=
  rdBind (readBytes 4) fun b => rdPure (leNat b)

/-- Read a single byte. -/
def readU8 : Reader Nat :=
  rdBind (readBytes 1) fun b => rdPure (leNat b)

/-- Read a `w`-byte two's-complement signed integer. -/
def readIntW (w : Nat) : Reader Int :=
  rdBind (readBytes w) fun b => rdPure (leInt w b)

/-- Encode a `u64` length/`usize` (8 bytes little-endian). -/
def encU64 (n : Nat) : List Nat := natLE 8 n

/-- Encode a `u32` (4 bytes little-endian). -/
def encU32 (n : Nat) : List Nat := natLE 4 n

/-- A reader is a *stream reader* when, whenever it succeeds, it has
consumed a determined prefix of the input and would decode that same
prefix identically in front of any continuation of the stream.  All
readers in this development have this property; it is what makes
"deserialize a prefix, leave the rest" well-defined. -/
def GoodReader {α : Type} (r : Reader α) : Prop :=
  ∀ s a rest, r s = some (a, rest) →
    ∃ pre, s = pre ++ rest ∧ ∀ t, r (pre ++ t) = some (a, t)

/-- Encode a list as `bincode`/ark encode a `Vec`: a `u64` element
count followed by the encodings of the elements in order. -/
def encVec {α : Type} (f : α → List Nat) (l : List α) : List Nat :=
  encU64 l.length ++ (l.map f).flatten

/-- Read a `Vec`: a `u64` count, then that many elements. -/
def readVec {α : Type} (r : Reader α) : Reader (List α) :=
  rdBind readU64 fun n => readN r n

/-! ## Domain model: scalars, time types, identifiers
(`proof_of_sql` / `proof_of_sql_parser` base types used by `src/pubs.rs`
and `src/serde.rs`) -/

/-- The order of the BLS12-381 scalar field.  A `DoryScalar` is a field
element of this field; it is modelled by its canonical representative,
and its 32-byte little-endian wire form only decodes for canonical
values. -/
def scalarMod : Nat :=
  52435875175126190479447740508185965837690552500527637822603658699938581184513

/-- Wire encoding of a `DoryScalar` (32 bytes, little-endian canonical
representative). -/
def encScalar (n : Nat) : List Nat := natLE 32 n

/-- Decode a `DoryScalar`: 32 bytes, rejecting non-canonical values. -/
def readScalar : Reader Nat :=
  rdBind (readBytes 32) fun b =>
    if leNat b < scalarMod then rdPure (leNat b) else rdFail

/-- `PoSQLTimeUnit` from `proof_of_sql_parser::posql_time`. -/
inductive PoSQLTimeUnit
  | second
  | millisecond
  | microsecond
  | nanosecond
  deriving DecidableEq

/-- `PoSQLTimeZone` from `proof_of_sql_parser::posql_time`: UTC or a
fixed offset in seconds (an `i32`). -/
inductive PoSQLTimeZone
  | utc
  | fixedOffset (offset : Int)
  deriving DecidableEq

/-- Wire encoding of a `PoSQLTimeUnit` (serde enum: `u32` variant tag). -/
def encTimeUnit : PoSQLTimeUnit → List Nat
  | .second => encU32 0
  | .millisecond => encU32 1
  | .microsecond => encU32 2
  | .nanosecond => encU32 3

def readTimeUnit : Reader PoSQLTimeUnit :=
  rdBind readU32 fun tag =>
    if tag = 0 then rdPure .second
    else if tag = 1 then rdPure .millisecond
    else if tag = 2 then rdPure .microsecond
    else if tag = 3 then rdPure .nanosecond
    else rdFail

/-- Wire encoding of a `PoSQLTimeZone` (serde enum: `u32` variant tag,
then the `i32` offset for the fixed-offset variant). -/
def encTimeZone : PoSQLTimeZone → List Nat
  | .utc => encU32 0
  | .fixedOffset z => encU32 1 ++ intLE 4 z

def readTimeZone : Reader PoSQLTimeZone :=
  rdBind readU32 fun tag =>
    if tag = 0 then rdPure .utc
    else if tag = 1 then rdBind (readIntW 4) fun z => rdPure (.fixedOffset z)
    else rdFail

/-- Byte string with a `u64` length prefix: the `bincode` wire form of
a Rust `String` / `Vec<u8>`.  Strings are modelled by their UTF-8 byte
content. -/
def encBString (bs : List Nat) : List Nat := encU64 bs.length ++ bs

def readBString : Reader (List Nat) :=
  rdBind readU64 fun n => readBytes n

/-- Column identifiers are modelled by their byte content. -/
abbrev Ident := List Nat

/-- First character of the `Identifier` grammar: ASCII letter or
underscore. -/
def isIdentStart (c : Nat) : Bool :=
  (65 ≤ c && c ≤ 90) || (97 ≤ c && c ≤ 122) || c == 95

/-- Later characters of the `Identifier` grammar: letter, digit or
underscore. -/
def isIdentCont (c : Nat) : Bool :=
  isIdentStart c || (48 ≤ c && c ≤ 57)

/-- The `proof_of_sql_parser::Identifier` grammar: non-empty, at most
64 characters, leading letter/underscore, then letters, digits or
underscores. -/
def validIdent (bs : List Nat) : Bool :=
  match bs with
  | [] => false
  | c :: rest => isIdentStart c && rest.all isIdentCont && decide (rest.length ≤ 63)

/-- `Identifier::try_new`: validate a string against the identifier
grammar. -/
def identTryNew (bs : List Nat) : Option Ident :=
  if validIdent bs then some bs else none

/-! ## Column model (`proof_of_sql::base::database`) -/

/-- `ColumnType`: the declared type of a column, including the
parameters of the two parameterized variants.  Wire form: serde enum
(`u32` variant tag, then the variant's fields).  The tag values follow
the variant order of the crate's serde mirror `OwnedColumnDef`
(`src/serde.rs`). -/
inductive ColumnType
  | boolean
  | smallInt
  | int
  | bigInt
  | varChar
  | int128
  | decimal75 (precision : Nat) (scale : Int)
  | scalar
  | timestampTZ (unit : PoSQLTimeUnit) (zone : PoSQLTimeZone)
  deriving DecidableEq

def encColumnType : ColumnType → List Nat
  | .boolean => encU32 0
  | .smallInt => encU32 1
  | .int => encU32 2
  | .bigInt => encU32 3
  | .varChar => encU32 4
  | .int128 => encU32 5
  | .decimal75 p s => encU32 6 ++ natLE 1 p ++ intLE 1 s
  | .scalar => encU32 7
  | .timestampTZ u z => encU32 8 ++ encTimeUnit u ++ encTimeZone z

def readColumnType : Reader ColumnType :=
  rdBind readU32 fun tag =>
    if tag = 0 then rdPure .boolean
    else if tag = 1 then rdPure .smallInt
    else if tag = 2 then rdPure .int
    else if tag = 3 then rdPure .bigInt
    else if tag = 4 then rdPure .varChar
    else if tag = 5 then rdPure .int128
    else if tag = 6 then
      rdBind readU8 fun p => rdBind (readIntW 1) fun s => rdPure (.decimal75 p s)
    else if tag = 7 then rdPure .scalar
    else if tag = 8 then
      rdBind readTimeUnit fun u => rdBind readTimeZone fun z =>
        rdPure (.timestampTZ u z)
    else rdFail

/-- `OwnedColumn<DoryScalar>`: one homogeneous typed value sequence.
The upstream enum is `#[non_exhaustive]`; `unknownVariant` stands for
any variant outside the nine the crate handles, which `into_bytes`
(`src/pubs.rs`) catches with its `&_ => Err(InvalidInput)` arm. -/
inductive OwnedColumn
  | boolean (v : List Bool)
  | smallInt (v : List Int)
  | int (v : List Int)
  | bigInt (v : List Int)
  | varChar (v : List (List Nat))
  | int128 (v : List Int)
  | decimal75 (precision : Nat) (scale : Int) (v : List Nat)
  | scalar (v : List Nat)
  | timestampTZ (unit : PoSQLTimeUnit) (zone : PoSQLTimeZone) (v : List Int)
  | unknownVariant
  deriving DecidableEq

/-- `OwnedColumn::column_type()`, partial on the model's
`unknownVariant` (a real future variant would report its own new
`ColumnType`, which the nine-variant model does not carry). -/
def columnTypeOf : OwnedColumn → Option ColumnType
  | .boolean _ => some .boolean
  | .smallInt _ => some .smallInt
  | .int _ => some .int
  | .bigInt _ => some .bigInt
  | .varChar _ => some .varChar
  | .int128 _ => some .int128
  | .decimal75 p s _ => some (.decimal75 p s)
  | .scalar _ => some .scalar
  | .timestampTZ u z _ => some (.timestampTZ u z)
  | .unknownVariant => none

/-- The element count of a column (`OwnedColumn::len()`); 0 for the
model's `unknownVariant`, which no decode path ever produces. -/
def numRows : OwnedColumn → Nat
  | .boolean v => v.length
  | .smallInt v => v.length
  | .int v => v.length
  | .bigInt v => v.length
  | .varChar v => v.length
  | .int128 v => v.length
  | .decimal75 _ _ v => v.length
  | .scalar v => v.length
  | .timestampTZ _ _ v => v.length
  | .unknownVariant => 0

/-- Wire encoding of a `bool` (one byte, 0 or 1). -/
def encBool (b : Bool) : List Nat := [if b then 1 else 0]

def readBool : Reader Bool :=
  rdBind readU8 fun n =>
    if n = 0 then rdPure false else if n = 1 then rdPure true else rdFail

/-- The payload `into_bytes` writes for a column after the column-type
tag (`src/pubs.rs` lines 117–152): the value vector, preceded for the
two parameterized variants by their parameters (which therefore appear
on the wire twice — once inside the type tag and once here).  `none`
models the `&_ => Err(VerifyError::InvalidInput)` arm. -/
def encColumnBody : OwnedColumn → Option (List Nat)
  | .boolean v => some (encVec encBool v)
  | .smallInt v => some (encVec (intLE 2) v)
  | .int v => some (encVec (intLE 4) v)
  | .bigInt v => some (encVec (intLE 8) v)
  | .varChar v => some (encVec encBString v)
  | .int128 v => some (encVec (intLE 16) v)
  | .decimal75 p s v => some (natLE 1 p ++ intLE 1 s ++ encVec encScalar v)
  | .scalar v => some (encVec encScalar v)
  | .timestampTZ u z v => some (encTimeUnit u ++ encTimeZone z ++ encVec (intLE 8) v)
  | .unknownVariant => none

/-- The column decoder of `from_bytes` (`src/pubs.rs` lines 180–221):
dispatch on the separately-read `ColumnType`, ignoring the parameters
embedded in the tag and re-reading them from the stream, exactly as
the source does for `Decimal75(_, _)` and `TimestampTZ(_, _)`. -/
def readColumnOfType : ColumnType → Reader OwnedColumn
  | .boolean => rdBind (readVec readBool) fun v => rdPure (.boolean v)
  | .smallInt => rdBind (readVec (readIntW 2)) fun v => rdPure (.smallInt v)
  | .int => rdBind (readVec (readIntW 4)) fun v => rdPure (.int v)
  | .bigInt => rdBind (readVec (readIntW 8)) fun v => rdPure (.bigInt v)
  | .varChar => rdBind (readVec readBString) fun v => rdPure (.varChar v)
  | .int128 => rdBind (readVec (readIntW 16)) fun v => rdPure (.int128 v)
  | .decimal75 _ _ =>
    rdBind readU8 fun p => rdBind (readIntW 1) fun s =>
      rdBind (readVec readScalar) fun v => rdPure (.decimal75 p s v)
  | .scalar => rdBind (readVec readScalar) fun v => rdPure (.scalar v)
  | .timestampTZ _ _ =>
    rdBind readTimeUnit fun u => rdBind readTimeZone fun z =>
      rdBind (readVec (readIntW 8)) fun v => rdPure (.timestampTZ u z v)

/-! ## Tables (`OwnedTable<DoryScalar>` over an `IndexMap`) -/

/-- Insertion into an insertion-ordered map (`indexmap::IndexMap`):
an existing key keeps its position and has its value replaced; a new
key is appended. -/
def imInsert {β : Type} (m : List (Ident × β)) (k : Ident) (v : β) :
    List (Ident × β) :=
  if m.any (fun kv => decide (kv.1 = k)) then
    m.map (fun kv => if kv.1 = k then (k, v) else kv)
  else m ++ [(k, v)]

/-- `IndexMap::from_iter` / collecting an iterator of pairs into an
`IndexMap`: later pairs with a duplicate key silently overwrite the
earlier value, keeping the first occurrence's position. -/
def imFromIter {β : Type} (l : List (Ident × β)) : List (Ident × β) :=
  l.foldl (fun m kv => imInsert m kv.1 kv.2) []

/-- An `OwnedTable<DoryScalar>`: the inner insertion-ordered map from
identifiers to columns, as a list of entries in insertion order. -/
abbrev OwnedTable := List (Ident × OwnedColumn)

/-- The all-columns-same-length check of `OwnedTable::try_new`
(first column as reference). -/
def tableLengthsOk (t : OwnedTable) : Bool :=
  match t with
  | [] => true
  | (_, c) :: rest => rest.all fun kv => numRows kv.2 == numRows c

/-- `OwnedTable::try_new`: accept an index map whose columns all have
the same length, otherwise fail (`OwnedTableError::ColumnLengthMismatch`). -/
def OwnedTable.tryNew (m : OwnedTable) : Option OwnedTable :=
  if tableLengthsOk m then some m else none

/-- `OwnedTable::try_from_iter`: collect the pairs into an `IndexMap`
(silently merging duplicate keys) and run `try_new`. -/
def OwnedTable.tryFromIter (l : List (Ident × OwnedColumn)) : Option OwnedTable :=
  OwnedTable.tryNew (imFromIter l)

/-- `QueryData<DoryScalar>` (`proof_of_sql::sql::proof`): a result
table plus the 32-byte verification hash. -/
structure QueryData where
  table : OwnedTable
  verification_hash : List Nat
  deriving DecidableEq

/-- `VerifyError` (`src/errors.rs`).  The variant here named
`VerificationFailed` is the "verify proof failed" variant (named
`VerifyError::VerifyError` in one snapshot of `errors.rs` and
`VerificationFailed` where `verify_generic.rs` uses it). -/
inductive VerifyError
  | InvalidInput
  | InvalidProofData
  | VerificationFailed
  | InvalidVerificationKey
  deriving DecidableEq

/-! ## Query plan and commitments -/

/-- A table reference (`TableRef`), modelled by its byte content. -/
abbrev TableRef := List Nat

/-- One column reference of a query plan, as yielded by
`ProofPlan::get_column_references()`: the referenced table, the column
identifier, and the column type the plan expects. -/
structure ColumnRef where
  table_ref : TableRef
  column_id : Ident
  column_type : ColumnType
  deriving DecidableEq

/-- Modelled from the spec: `DynProofPlan` is an opaque, serializable
expression tree whose only capability the core depends on is
enumerating its column references (`Plan.column_references()`); the
rest of the tree is an opaque payload. -/
structure DynProofPlan where
  column_refs : List ColumnRef
  payload : List Nat
  deriving DecidableEq

/-- `ProofPlan::get_column_references()`. -/
def DynProofPlan.get_column_references (p : DynProofPlan) : List ColumnRef :=
  p.column_refs

/-- Column-commitment metadata (`ColumnCommitmentMetadata`): the
declared column type plus opaque bounds data. -/
structure ColumnCommitmentMetadata where
  column_type : ColumnType
  bounds : List Nat
  deriving DecidableEq

/-- `ColumnCommitments`: the opaque per-column commitment values plus
the per-column metadata map. -/
structure ColumnCommitments where
  commitments : List Nat
  column_metadata : List (Ident × ColumnCommitmentMetadata)
  deriving DecidableEq

/-- Ordered-map lookup (first matching key). -/
def alookup {β : Type} (m : List (List Nat × β)) (k : List Nat) : Option β :=
  match m with
  | [] => none
  | kv :: rest => if kv.1 = k then some kv.2 else alookup rest k

/-- `ColumnCommitments::get_metadata(column_id)`. -/
def ColumnCommitments.get_metadata (cc : ColumnCommitments) (id : Ident) :
    Option ColumnCommitmentMetadata :=
  alookup cc.column_metadata id

/-- `TableCommitment`: the column commitments plus the row range. -/
structure TableCommitment where
  column_commitments : ColumnCommitments
  range_start : Nat
  range_end : Nat
  deriving DecidableEq

/-- `QueryCommitments<DoryCommitment>`: an insertion-ordered map from
table references to table commitments. -/
abbrev QueryCommitments := List (TableRef × TableCommitment)

/-- `QueryCommitments::get(&table_ref)`. -/
def qcGet (m : QueryCommitments) (t : TableRef) : Option TableCommitment :=
  alookup m t

/-! Wire codecs for the plan and the commitments.  Their concrete
`bincode` layouts belong to the external `proof_of_sql` crate; the
model gives the opaque parts straightforward length-prefixed layouts
with the stream property (`readX (encX v ++ t) = some (v, t)`) that
`from_bytes` relies on. -/

def encColumnRef (c : ColumnRef) : List Nat :=
  encBString c.table_ref ++ encBString c.column_id ++ encColumnType c.column_type

def readColumnRef : Reader ColumnRef :=
  rdBind readBString fun t => rdBind readBString fun i =>
    rdBind readColumnType fun ct => rdPure ⟨t, i, ct⟩

def encPlan (p : DynProofPlan) : List Nat :=
  encVec encColumnRef p.column_refs ++ encBString p.payload

def readPlan : Reader DynProofPlan :=
  rdBind (readVec readColumnRef) fun refs =>
    rdBind readBString fun payload => rdPure ⟨refs, payload⟩

def encMetadata (md : ColumnCommitmentMetadata) : List Nat :=
  encColumnType md.column_type ++ encBString md.bounds

def readMetadata : Reader ColumnCommitmentMetadata :=
  rdBind readColumnType fun ct => rdBind readBString fun b => rdPure ⟨ct, b⟩

def encIdentMeta (kv : Ident × ColumnCommitmentMetadata) : List Nat :=
  encBString kv.1 ++ encMetadata kv.2

def readIdentMeta : Reader (Ident × ColumnCommitmentMetadata) :=
  rdBind readBString fun k => rdBind readMetadata fun md => rdPure (k, md)

def encTableCommitment (tc : TableCommitment) : List Nat :=
  encBString tc.column_commitments.commitments ++
    encVec encIdentMeta tc.column_commitments.column_metadata ++
    encU64 tc.range_start ++ encU64 tc.range_end

def readTableCommitment : Reader TableCommitment :=
  rdBind readBString fun cs => rdBind (readVec readIdentMeta) fun md =>
    rdBind readU64 fun r0 => rdBind readU64 fun r1 =>
      rdPure ⟨⟨cs, md⟩, r0, r1⟩

def encRefComm (kv : TableRef × TableCommitment) : List Nat :=
  encBString kv.1 ++ encTableCommitment kv.2

def readRefComm : Reader (TableRef × TableCommitment) :=
  rdBind readBString fun t => rdBind readTableCommitment fun tc => rdPure (t, tc)

def encQueryCommitments (m : QueryCommitments) : List Nat :=
  encVec encRefComm m

def readQueryCommitments : Reader QueryCommitments :=
  readVec readRefComm

/-! ## The public-input bundle (`src/pubs.rs`) -/

/-- `DoryPublicInput`: the query plan, the commitments and the claimed
query data. -/
structure DoryPublicInput where
  expr : DynProofPlan
  commitments : QueryCommitments
  query_data : QueryData
  deriving DecidableEq

/-- One entry of the table section written by `into_bytes`: the
identifier string, the column type, then the column payload; `none` is
the unsupported-variant error arm. -/
def encTableEntry (kv : Ident × OwnedColumn) : Option (List Nat) :=
  match columnTypeOf kv.2, encColumnBody kv.2 with
  | some ct, some body => some (encBString kv.1 ++ encColumnType ct ++ body)
  | _, _ => none

/-- The table section written by `into_bytes` (the `for (k, v) in
table` loop), failing on the first unsupported variant. -/
def encTableEntries : List (Ident × OwnedColumn) → Option (List Nat)
  | [] => some []
  | kv :: rest =>
    match encTableEntry kv, encTableEntries rest with
    | some e, some es => some (e ++ es)
    | _, _ => none

/-- `DoryPublicInput::into_bytes` (`src/pubs.rs` lines 98–158):
serialize the plan, the commitments, the table length as a `u32`, each
table entry, and the verification hash; a column outside the nine
supported variants aborts with `InvalidInput`. -/
def DoryPublicInput.into_bytes (p : DoryPublicInput) :
    Except VerifyError (List Nat) :=
  match encTableEntries p.query_data.table with
  | none => .error .InvalidInput
  | some body =>
    .ok (encPlan p.expr ++ encQueryCommitments p.commitments ++
      encU32 p.query_data.table.length ++ body ++
      p.query_data.verification_hash)

/-- One iteration of the table-decode loop of `from_bytes`
(`src/pubs.rs` lines 175–223): read the identifier string, read the
column type, validate the identifier, then decode the column by the
declared type. -/
def readTableEntry : Reader (Ident × OwnedColumn) :=
  rdBind readBString fun k =>
    rdBind readColumnType fun ct => fun s =>
      match identTryNew k with
      | none => none
      | some ident =>
        (rdBind (readColumnOfType ct) fun col => rdPure (ident, col)) s

/-- The table-decode loop of `from_bytes` (`src/pubs.rs` line 174):
`while cursor.position() < bytes.len() && vector.len() < table_len`.
The declared count bounds the number of iterations; reaching the end
of the stream also stops the loop (without error). -/
def readTableEntries : Nat → Reader (List (Ident × OwnedColumn))
  | 0 => rdPure []
  | n + 1 => fun s =>
    if s.isEmpty then some ([], s)
    else
      (rdBind readTableEntry fun e =>
        rdBind (readTableEntries n) fun es => rdPure (e :: es)) s

/-- The deserialization sequence of `DoryPublicInput::from_bytes`
(`src/pubs.rs` lines 161–239): the plan, the commitments, the declared
`u32` column count, the bounded table-entry loop, the collection of
the entries through `OwnedTable::try_from_iter`, then the 32-byte
verification hash. -/
def pubsReader : Reader DoryPublicInput :=
  rdBind readPlan fun expr =>
    rdBind readQueryCommitments fun commitments =>
      rdBind readU32 fun table_len =>
        rdBind (readTableEntries table_len) fun vector => fun s =>
          match OwnedTable.tryFromIter vector with
          | none => none
          | some table =>
            (rdBind (readBytes 32) fun verification_hash =>
              rdPure (DoryPublicInput.mk expr commitments
                ⟨table, verification_hash⟩)) s

/-- `DoryPublicInput::from_bytes`: run the deserialization sequence on
the buffer.  Trailing unconsumed bytes are not an error. -/
def DoryPublicInput.from_bytes (bytes : List Nat) : Option DoryPublicInput :=
  match pubsReader bytes with
  | some (b, _) => some b
  | none => none

/-- `TryFrom<&[u8]> for DoryPublicInput` (`src/pubs.rs` lines 47–53):
any `from_bytes` failure becomes `InvalidInput`. -/
def DoryPublicInput.try_from (bytes : List Nat) :
    Except VerifyError DoryPublicInput :=
  match DoryPublicInput.from_bytes bytes with
  | some b => .ok b
  | none => .error .InvalidInput

/-! ## The serde-derived table decoder (`src/serde.rs`) -/

/-- A serde-level decode failure of the `OwnedTableDef` path: either
the `MapPreventDuplicates` duplicate-key rejection, or a custom error
carrying the `VerifyError` raised by `TryFrom<RaggedTable>`. -/
inductive SerdeErr
  | duplicateField
  | custom (e : VerifyError)
  deriving DecidableEq

/-- The serde-derived `OwnedTableDef` deserializer (`src/serde.rs`
lines 47–69): the self-describing format yields a sequence of
(identifier, column) entries; `MapPreventDuplicates` rejects any
duplicate key while collecting them into the `RaggedTable` index map,
and `TryFrom<RaggedTable> for OwnedTable` then runs
`OwnedTable::try_new`, mapping its failure to
`VerifyError::InvalidInput`. -/
def decodeOwnedTableDef (entries : List (Ident × OwnedColumn)) :
    Except SerdeErr OwnedTable :=
  if (entries.map Prod.fst).Nodup then
    match OwnedTable.tryNew (imFromIter entries) with
    | some t => .ok t
    | none => .error (.custom .InvalidInput)
  else .error .duplicateField

/-! ## Verification key (`src/verification_key.rs`)

Group elements are modelled by the numeric value of their fixed-size
compressed encodings (GT: 576 bytes, G1: 48, G2: 96, the constants the
source asserts against `ark_bls12_381`).  `try_from` uses
`deserialize_compressed_unchecked`, which skips point validation, so
reading an element is modelled as reading its fixed-size block; a read
fails exactly when too few bytes remain.  `usize` serializes as 8
bytes (64-bit target). -/

def GT_SERIALIZED_SIZE : Nat := 576

def G1_AFFINE_SERIALIZED_SIZE : Nat := 48

def G2_AFFINE_SERIALIZED_SIZE : Nat := 96

def usizeSize : Nat := 8

def encGT (n : Nat) : List Nat := natLE GT_SERIALIZED_SIZE n

def readGT : Reader Nat :=
  rdBind (readBytes GT_SERIALIZED_SIZE) fun b => rdPure (leNat b)

def encG1 (n : Nat) : List Nat := natLE G1_AFFINE_SERIALIZED_SIZE n

def readG1 : Reader Nat :=
  rdBind (readBytes G1_AFFINE_SERIALIZED_SIZE) fun b => rdPure (leNat b)

def encG2 (n : Nat) : List Nat := natLE G2_AFFINE_SERIALIZED_SIZE n

def readG2 : Reader Nat :=
  rdBind (readBytes G2_AFFINE_SERIALIZED_SIZE) fun b => rdPure (leNat b)

/-- `VerifierSetup` (`proof_of_sql::proof_primitive::dory`): five
`Vec<GT>` fields (serialized with `u64` length prefixes read back from
the buffer), two G1 points, three G2 points, one GT point and the
`max_nu` field, in the order the source's `serialized_size` comment
lists them. -/
structure VerifierSetup where
  delta_1L : List Nat
  delta_1R : List Nat
  delta_2L : List Nat
  delta_2R : List Nat
  chi : List Nat
  gamma_1_0 : Nat
  h_1 : Nat
  gamma_2_0 : Nat
  h_2 : Nat
  gamma_2_fin : Nat
  h_T : Nat
  max_nu : Nat
  deriving DecidableEq

/-- `VerificationKey` (`src/verification_key.rs`): the wrapped
`VerifierSetup` plus the `sigma` sizing field, serialized in
declaration order by the derived `CanonicalSerialize`. -/
structure VerificationKey where
  setup : VerifierSetup
  sigma : Nat
  deriving DecidableEq

/-- `VerificationKey::to_bytes` (derived `CanonicalSerialize`,
compressed). -/
def VerificationKey.to_bytes (vk : VerificationKey) : List Nat :=
  encVec encGT vk.setup.delta_1L ++ encVec encGT vk.setup.delta_1R ++
    encVec encGT vk.setup.delta_2L ++ encVec encGT vk.setup.delta_2R ++
    encVec encGT vk.setup.chi ++
    encG1 vk.setup.gamma_1_0 ++ encG1 vk.setup.h_1 ++
    encG2 vk.setup.gamma_2_0 ++ encG2 vk.setup.h_2 ++
    encG2 vk.setup.gamma_2_fin ++
    encGT vk.setup.h_T ++ encU64 vk.setup.max_nu ++ encU64 vk.sigma

/-- The derived `CanonicalDeserialize` for `VerificationKey`, reading
the fields in declaration order.  Vector lengths are read from the
buffer; nothing cross-checks them against `max_nu`, and nothing
requires the buffer to be exhausted. -/
def readVerificationKey : Reader VerificationKey :=
  rdBind (readVec readGT) fun d1L =>
    rdBind (readVec readGT) fun d1R =>
      rdBind (readVec readGT) fun d2L =>
        rdBind (readVec readGT) fun d2R =>
          rdBind (readVec readGT) fun chi =>
            rdBind readG1 fun g10 =>
              rdBind readG1 fun h1 =>
                rdBind readG2 fun g20 =>
                  rdBind readG2 fun h2 =>
                    rdBind readG2 fun g2fin =>
                      rdBind readGT fun hT =>
                        rdBind readU64 fun mn =>
                          rdBind readU64 fun sg =>
                            rdPure ⟨⟨d1L, d1R, d2L, d2R, chi,
                              g10, h1, g20, h2, g2fin, hT, mn⟩, sg⟩

/-- `TryFrom<&[u8]> for VerificationKey` (`src/verification_key.rs`
lines 50–53): run `deserialize_compressed_unchecked` on the buffer and
map any failure to `InvalidVerificationKey`.  There is no length
check, and bytes left unconsumed after the key's fields are ignored. -/
def VerificationKey.try_from (bytes : List Nat) :
    Except VerifyError VerificationKey :=
  match readVerificationKey bytes with
  | some (vk, _) => .ok vk
  | none => .error .InvalidVerificationKey

/-- `VerificationKey::serialized_size(max_nu)` (`src/verification_key.rs`
lines 98–104), verbatim closed form. -/
def VerificationKey.serialized_size (max_nu : Nat) : Nat :=
  5 * (usizeSize + (max_nu + 1) * GT_SERIALIZED_SIZE)
    + 2 * G1_AFFINE_SERIALIZED_SIZE
    + 3 * G2_AFFINE_SERIALIZED_SIZE
    + GT_SERIALIZED_SIZE
    + 2 * usizeSize

/-- Modelled from the spec: `PublicParameters` (external key
generation material, out of scope) carries the sizing parameter
`max_nu` plus opaque group-element data. -/
structure PublicParameters where
  max_nu : Nat
  gtSeed : Nat
  g1Seed : Nat
  g2Seed : Nat

/-- Modelled from the spec: `VerifierSetup::from(params)` (external)
builds, for sizing parameter `max_nu`, five GT vectors of `max_nu + 1`
repeated group elements each, the fixed individual points, and records
`max_nu` (spec §6: "a constant group-element size times a small number
of fixed group elements plus `(sizing+1)` repeated group elements"). -/
def VerifierSetup.fromParams (params : PublicParameters) : VerifierSetup :=
  { delta_1L := List.replicate (params.max_nu + 1) params.gtSeed
    delta_1R := List.replicate (params.max_nu + 1) params.gtSeed
    delta_2L := List.replicate (params.max_nu + 1) params.gtSeed
    delta_2R := List.replicate (params.max_nu + 1) params.gtSeed
    chi := List.replicate (params.max_nu + 1) params.gtSeed
    gamma_1_0 := params.g1Seed
    h_1 := params.g1Seed
    gamma_2_0 := params.g2Seed
    h_2 := params.g2Seed
    gamma_2_fin := params.g2Seed
    h_T := params.gtSeed
    max_nu := params.max_nu }

/-- `VerificationKey::new(params, sigma)` (`src/verification_key.rs`
lines 66–71). -/
def VerificationKey.new (params : PublicParameters) (sigma : Nat) :
    VerificationKey :=
  { setup := VerifierSetup.fromParams params, sigma := sigma }

/-! ## The verification-consistency engine (`src/verify_generic.rs`) -/

/-- A proof blob (`VerifiableQueryResult`), opaque to the engine. -/
abbrev Proof := List Nat

/-- The verifier public setup argument, opaque to the engine. -/
abbrev VerifierSetupArg := List Nat

/-- The external cryptographic verifier
(`VerifiableQueryResult::verify(expr, commitments, setup)`), an opaque
capability: it either rejects (`none`) or returns the computed
`QueryData` (result table plus verification hash). -/
def CryptoVerifier : Type :=
  Proof → DynProofPlan → QueryCommitments → VerifierSetupArg → Option QueryData

/-- The column/commitment cross-check loop of `verify_proof`
(`src/verify_generic.rs` lines 53–66 and identically
`src/verify.rs` lines 51–64): for each column reference, look up the
commitment for the reference's table; a missing table is
`InvalidInput`; when the table's commitment carries metadata for the
column, a declared-type mismatch is `InvalidInput`; metadata absent
for the column is skipped. -/
def crossCheck (refs : List ColumnRef) (commitments : QueryCommitments) :
    Except VerifyError Unit :=
  match refs with
  | [] => .ok ()
  | column :: rest =>
    match qcGet commitments column.table_ref with
    | some commitment =>
      match commitment.column_commitments.get_metadata column.column_id with
      | some metadata =>
        if metadata.column_type ≠ column.column_type then .error .InvalidInput
        else crossCheck rest commitments
      | none => crossCheck rest commitments
    | none => .error .InvalidInput

/-- `verify_proof` (`src/verify_generic.rs` lines 45–78): the
cross-check, then the delegated cryptographic verification (rejection
mapped to `VerificationFailed`), then the comparison of the computed
result table and verification hash against the claimed query data. -/
def verify_proof (crypto_verify : CryptoVerifier) (proof : Proof)
    (expr : DynProofPlan) (commitments : QueryCommitments)
    (query_data : QueryData) (setup : VerifierSetupArg) :
    Except VerifyError Unit :=
  match crossCheck expr.get_column_references commitments with
  | .error e => .error e
  | .ok _ =>
    match crypto_verify proof expr commitments setup with
    | none => .error .VerificationFailed
    | some result =>
      if result.table ≠ query_data.table ∨
          result.verification_hash ≠ query_data.verification_hash then
        .error .VerificationFailed
      else .ok ()

/-- The spec's abstract per-column commitment lookup
(`Commitments.lookup(table_ref, column_id)`, spec §6), expressed over
the source's commitment map: the metadata entry for the referenced
column inside the referenced table's commitment, if both exist.  A
commitment for the `(table, column)` key exists exactly when this is
`some`. -/
def lookupTableColumnCommitment (m : QueryCommitments) (t : TableRef)
    (c : Ident) : Option ColumnCommitmentMetadata :=
  match qcGet m t with
  | none => none
  | some tc => tc.column_commitments.get_metadata c

/-! ## Well-formedness: the values constructible in the source program

These predicates say that a model value corresponds to a value the
Rust program can actually hold: machine integers in range, `Vec` and
`String` lengths below `2^64`, scalars canonical, identifiers valid,
a 32-byte hash, tables with distinct keys and equal column lengths. -/

def wfZone : PoSQLTimeZone → Prop
  | .utc => True
  | .fixedOffset z => intFits 4 z

def wfColumnType : ColumnType → Prop
  | .decimal75 p s => p < 256 ∧ intFits 1 s
  | .timestampTZ _ z => wfZone z
  | _ => True

def wfColumn : OwnedColumn → Prop
  | .boolean v => v.length < 2 ^ 64
  | .smallInt v => v.length < 2 ^ 64 ∧ ∀ z ∈ v, intFits 2 z
  | .int v => v.length < 2 ^ 64 ∧ ∀ z ∈ v, intFits 4 z
  | .bigInt v => v.length < 2 ^ 64 ∧ ∀ z ∈ v, intFits 8 z
  | .varChar v => v.length < 2 ^ 64 ∧ ∀ s ∈ v, s.length < 2 ^ 64
  | .int128 v => v.length < 2 ^ 64 ∧ ∀ z ∈ v, intFits 16 z
  | .decimal75 p s v =>
    p < 256 ∧ intFits 1 s ∧ v.length < 2 ^ 64 ∧ ∀ n ∈ v, n < scalarMod
  | .scalar v => v.length < 2 ^ 64 ∧ ∀ n ∈ v, n < scalarMod
  | .timestampTZ _ z v => wfZone z ∧ v.length < 2 ^ 64 ∧ ∀ x ∈ v, intFits 8 x
  | .unknownVariant => False

def wfTable (t : OwnedTable) : Prop :=
  t.length < 2 ^ 32 ∧ (t.map Prod.fst).Nodup ∧ tableLengthsOk t = true ∧
    ∀ kv ∈ t, validIdent kv.1 = true ∧ wfColumn kv.2

def wfQueryData (qd : QueryData) : Prop :=
  wfTable qd.table ∧ qd.verification_hash.length = 32

def wfColumnRef (c : ColumnRef) : Prop :=
  c.table_ref.length < 2 ^ 64 ∧ c.column_id.length < 2 ^ 64 ∧
    wfColumnType c.column_type

def wfPlan (p : DynProofPlan) : Prop :=
  p.column_refs.length < 2 ^ 64 ∧ p.payload.length < 2 ^ 64 ∧
    ∀ c ∈ p.column_refs, wfColumnRef c

def wfMetadata (md : ColumnCommitmentMetadata) : Prop :=
  wfColumnType md.column_type ∧ md.bounds.length < 2 ^ 64

def wfTableCommitment (tc : TableCommitment) : Prop :=
  tc.column_commitments.commitments.length < 2 ^ 64 ∧
    tc.column_commitments.column_metadata.length < 2 ^ 64 ∧
    tc.range_start < 2 ^ 64 ∧ tc.range_end < 2 ^ 64 ∧
    ∀ kv ∈ tc.column_commitments.column_metadata,
      kv.1.length < 2 ^ 64 ∧ wfMetadata kv.2

def wfQueryCommitments (m : QueryCommitments) : Prop :=
  m.length < 2 ^ 64 ∧ ∀ kv ∈ m, kv.1.length < 2 ^ 64 ∧ wfTableCommitment kv.2

def wfBundle (b : DoryPublicInput) : Prop :=
  wfPlan b.expr ∧ wfQueryCommitments b.commitments ∧ wfQueryData b.query_data

instance (z : PoSQLTimeZone) : Decidable (wfZone z) := by
  cases z <;> (unfold wfZone; infer_instance)

instance (ct : ColumnType) : Decidable (wfColumnType ct) := by
  cases ct <;> (unfold wfColumnType; infer_instance)

instance (c : OwnedColumn) : Decidable (wfColumn c) := by
  cases c <;> (unfold wfColumn; infer_instance)

instance (t : OwnedTable) : Decidable (wfTable t) := by
  unfold wfTable; infer_instance

instance (qd : QueryData) : Decidable (wfQueryData qd) := by
  unfold wfQueryData; infer_instance

instance (c : ColumnRef) : Decidable (wfColumnRef c) := by
  unfold wfColumnRef; infer_instance

instance (p : DynProofPlan) : Decidable (wfPlan p) := by
  unfold wfPlan; infer_instance

instance (md : ColumnCommitmentMetadata) : Decidable (wfMetadata md) := by
  unfold wfMetadata; infer_instance

instance (tc : TableCommitment) : Decidable (wfTableCommitment tc) := by
  unfold wfTableCommitment; infer_instance

instance (m : QueryCommitments) : Decidable (wfQueryCommitments m) := by
  unfold wfQueryCommitments; infer_instance

instance (b : DoryPublicInput) : Decidable (wfBundle b) := by
  unfold wfBundle; infer_instance

/-- Well-formed GT vector: a real `Vec<GT>` (length below `2^64`,
elements canonical 576-byte values). -/
def wfGTVec (v : List Nat) : Prop :=
  v.length < 2 ^ 64 ∧ ∀ x ∈ v, x < 256 ^ GT_SERIALIZED_SIZE

/-- A `VerificationKey` value the Rust program can hold. -/
def wfVK (vk : VerificationKey) : Prop :=
  wfGTVec vk.setup.delta_1L ∧ wfGTVec vk.setup.delta_1R ∧
    wfGTVec vk.setup.delta_2L ∧ wfGTVec vk.setup.delta_2R ∧
    wfGTVec vk.setup.chi ∧
    vk.setup.gamma_1_0 < 256 ^ G1_AFFINE_SERIALIZED_SIZE ∧
    vk.setup.h_1 < 256 ^ G1_AFFINE_SERIALIZED_SIZE ∧
    vk.setup.gamma_2_0 < 256 ^ G2_AFFINE_SERIALIZED_SIZE ∧
    vk.setup.h_2 < 256 ^ G2_AFFINE_SERIALIZED_SIZE ∧
    vk.setup.gamma_2_fin < 256 ^ G2_AFFINE_SERIALIZED_SIZE ∧
    vk.setup.h_T < 256 ^ GT_SERIALIZED_SIZE ∧
    vk.setup.max_nu < 2 ^ 64 ∧ vk.sigma < 2 ^ 64

instance (v : List Nat) : Decidable (wfGTVec v) := by
  unfold wfGTVec
  infer_instance

instance (vk : VerificationKey) : Decidable (wfVK vk) := by
  unfold wfVK
  infer_instance

/-! ## Concrete sample values (used by witnesses and counterexamples) -/

instance {ε α : Type} [DecidableEq ε] [DecidableEq α] :
    DecidableEq (Except ε α) := fun a b => by
  cases a with
  | error e1 =>
    cases b with
    | error e2 =>
      exact if h : e1 = e2 then isTrue (by rw [h])
        else isFalse fun hc => h (by injection hc)
    | ok y => exact isFalse fun hc => Except.noConfusion hc
  | ok x =>
    cases b with
    | error e2 => exact isFalse fun hc => Except.noConfusion hc
    | ok y =>
      exact if h : x = y then isTrue (by rw [h])
        else isFalse fun hc => h (by injection hc)

/-- The identifier `a`. -/
def identA : Ident := [97]

/-- The identifier `b`. -/
def identB : Ident := [98]

/-- A table reference `t`. -/
def tableT : TableRef := [116]

/-- A plan with no column references. -/
def trivialPlan : DynProofPlan := ⟨[], []⟩

/-- A plan with one column reference: column `a` of table `t`,
expected type `BigInt`. -/
def planRefA : DynProofPlan := ⟨[⟨tableT, identA, .bigInt⟩], []⟩

/-- Query data with an empty table and an all-zero hash. -/
def qdEmpty : QueryData := ⟨[], List.replicate 32 0⟩

/-- A cryptographic delegate that always accepts and computes
`qdEmpty`. -/
def okCV : CryptoVerifier := fun _ _ _ _ => some qdEmpty

/-- A commitment map whose commitment for table `t` carries metadata
only for column `b`: it holds no commitment for the `(t, a)` key. -/
def commsOnlyB : QueryCommitments :=
  [(tableT, ⟨⟨[], [(identB, ⟨.varChar, []⟩)]⟩, 0, 4⟩)]

/-- A commitment map declaring column `a` of table `t` at type
`VarChar`. -/
def commsAVarChar : QueryCommitments :=
  [(tableT, ⟨⟨[], [(identA, ⟨.varChar, []⟩)]⟩, 0, 4⟩)]

/-- A small well-formed bundle: trivial plan, no commitments, one
boolean column `a`. -/
def sampleBundle : DoryPublicInput :=
  ⟨trivialPlan, [], ⟨[(identA, .boolean [true])], List.replicate 32 0⟩⟩

/-- A bundle whose table holds a column outside the nine supported
variants. -/
def unknownBundle : DoryPublicInput :=
  ⟨trivialPlan, [], ⟨[(identA, .unknownVariant)], List.replicate 32 0⟩⟩

/-- A public-input byte string whose table section declares two
entries, both named `a` (a Boolean `[true]` column, then a Boolean
`[false]` column), followed by a zero hash. -/
def dupTableBytes : List Nat :=
  encPlan trivialPlan ++ encQueryCommitments [] ++ encU32 2 ++
    (encBString identA ++ encColumnType .boolean ++ encVec encBool [true]) ++
    (encBString identA ++ encColumnType .boolean ++ encVec encBool [false]) ++
    List.replicate 32 0

/-- A table whose two columns have different lengths. -/
def raggedTable : OwnedTable :=
  [(identA, .boolean [true, false]), (identB, .boolean [true])]

/-- The sizing-parameter-0 sample key (all group elements zero). -/
def vk0 : VerificationKey := VerificationKey.new ⟨0, 0, 0, 0⟩ 0

/-! ## Lemmas and claim theorems -/

theorem natLE_length (w n : Nat) : (natLE w n).length = w := by
  induction w generalizing n with
  | zero => rfl
  | succ w ih => simp [natLE, ih]

theorem leNat_natLE (w n : Nat) : leNat (natLE w n) = n % 256 ^ w := by
  induction w generalizing n with
  | zero => simp [natLE, leNat, Nat.mod_one]
  | succ w ih =>
    simp only [natLE, leNat, ih]
    rw [pow_succ, Nat.mul_comm (256 ^ w) 256, Nat.mod_mul]

theorem leNat_natLE_of_lt {w n : Nat} (h : n < 256 ^ w) :
    leNat (natLE w n) = n := by
  rw [leNat_natLE, Nat.mod_eq_of_lt h]

theorem intLE_length (w : Nat) (z : Int) : (intLE w z).length = w :=
  natLE_length _ _

theorem two_pow_8w_eq (w : Nat) : (256 : Nat) ^ w = 2 ^ (8 * w) := by
  have h : (256 : Nat) = 2 ^ 8 := by norm_num
  rw [h, ← pow_mul]

theorem leInt_intLE {w : Nat} (hw : 0 < w) {z : Int} (h : intFits w z) :
    leInt w (intLE w z) = z := by
  obtain ⟨h1, h2⟩ := h
  have hMpos : (0 : Int) < (2 : Int) ^ (8 * w) := by positivity
  have hHM : (2 : Int) ^ (8 * w - 1) * 2 = (2 : Int) ^ (8 * w) := by
    rw [← pow_succ]
    congr 1
    omega
  have hnn : 0 ≤ z % ((2 : Int) ^ (8 * w)) := Int.emod_nonneg z (by positivity)
  have hub : z % ((2 : Int) ^ (8 * w)) < (2 : Int) ^ (8 * w) :=
    Int.emod_lt_of_pos z hMpos
  have hcast : (((z % ((2 : Int) ^ (8 * w))).toNat : Int)) = z % ((2 : Int) ^ (8 * w)) :=
    Int.toNat_of_nonneg hnn
  have hp256 : (((256 : Nat) ^ w : Nat) : Int) = (2 : Int) ^ (8 * w) := by
    rw [two_pow_8w_eq]
    push_cast
    rfl
  have hlt : (z % ((2 : Int) ^ (8 * w))).toNat < 256 ^ w := by
    have hx : (((z % ((2 : Int) ^ (8 * w))).toNat : Int)) < (((256 : Nat) ^ w : Nat) : Int) := by
      rw [hcast, hp256]
      exact hub
    exact_mod_cast hx
  have hzmod : z % ((2 : Int) ^ (8 * w)) = z ∨
      z % ((2 : Int) ^ (8 * w)) = z + (2 : Int) ^ (8 * w) := by
    rcases le_or_lt 0 z with hz | hz
    · left
      refine Int.emod_eq_of_lt hz ?_
      calc z < 2 ^ (8 * w - 1) := h2
      _ ≤ (2 : Int) ^ (8 * w) := pow_le_pow_right₀ one_le_two (by omega)
    · right
      have hshift : (z + (2 : Int) ^ (8 * w)) % ((2 : Int) ^ (8 * w)) =
          z % ((2 : Int) ^ (8 * w)) := by
        rw [show z + (2 : Int) ^ (8 * w) = z + (2 : Int) ^ (8 * w) * 1 by ring]
        exact Int.add_mul_emod_self_left z ((2 : Int) ^ (8 * w)) 1
      rw [← hshift]
      refine Int.emod_eq_of_lt (by omega) (by omega)
  unfold leInt intLE
  rw [leNat_natLE_of_lt hlt]
  have hpowcast : (((2 : Nat) ^ (8 * w - 1) : Nat) : Int) = (2 : Int) ^ (8 * w - 1) := by
    push_cast
    rfl
  split
  next hifc =>
    have hc : (((z % ((2 : Int) ^ (8 * w))).toNat : Int)) < (2 : Int) ^ (8 * w - 1) := by
      rw [← hpowcast]
      exact_mod_cast hifc
    omega
  next hifc =>
    have hc : ¬ (((z % ((2 : Int) ^ (8 * w))).toNat : Int)) < (2 : Int) ^ (8 * w - 1) := by
      rw [← hpowcast]
      exact_mod_cast hifc
    omega

theorem goodReader_pure {α : Type} (a : α) : GoodReader (rdPure a) := by
  intro s b rest h
  simp only [rdPure, Option.some.injEq, Prod.mk.injEq] at h
  obtain ⟨hb, hs⟩ := h
  exact ⟨[], by simp [hs], fun t => by simp [rdPure, hb]⟩

theorem goodReader_fail {α : Type} : GoodReader (rdFail (α := α)) := by
  intro s a rest h
  simp [rdFail] at h

theorem goodReader_bind {α β : Type} {r : Reader α} {f : α → Reader β}
    (hr : GoodReader r) (hf : ∀ a, GoodReader (f a)) :
    GoodReader (rdBind r f) := by
  intro s b rest h
  unfold rdBind at h
  cases hr1 : r s with
  | none => rw [hr1] at h; exact absurd h (by simp)
  | some v =>
    obtain ⟨a, s1⟩ := v
    rw [hr1] at h
    obtain ⟨pre1, hs1, hrun1⟩ := hr s a s1 hr1
    obtain ⟨pre2, hs2, hrun2⟩ := hf a s1 b rest h
    refine ⟨pre1 ++ pre2, ?_, ?_⟩
    · rw [hs1, hs2, List.append_assoc]
    · intro t
      unfold rdBind
      rw [List.append_assoc, hrun1 (pre2 ++ t)]
      exact hrun2 t

theorem goodReader_readBytes (w : Nat) : GoodReader (readBytes w) := by
  intro s a rest h
  unfold readBytes at h
  split at h
  · next hw =>
    simp only [Option.some.injEq, Prod.mk.injEq] at h
    obtain ⟨ha, hrest⟩ := h
    have hlen : (s.take w).length = w := by
      rw [List.length_take]
      omega
    refine ⟨s.take w, ?_, ?_⟩
    · rw [← hrest, List.take_append_drop]
    · intro t
      unfold readBytes
      rw [if_pos (by rw [List.length_append, hlen]; omega)]
      rw [List.take_left' hlen, List.drop_left' hlen, ha]
  · exact absurd h (by simp)

theorem goodReader_readN {α : Type} {r : Reader α} (hr : GoodReader r) :
    ∀ n, GoodReader (readN r n)
  | 0 => goodReader_pure []
  | n + 1 =>
    goodReader_bind hr fun _ =>
      goodReader_bind (goodReader_readN hr n) fun _ => goodReader_pure _

theorem goodReader_readU64 : GoodReader readU64 :=
  goodReader_bind (goodReader_readBytes 8) fun _ => goodReader_pure _

theorem goodReader_readU32 : GoodReader readU32 :=
  goodReader_bind (goodReader_readBytes 4) fun _ => goodReader_pure _

theorem goodReader_readU8 : GoodReader readU8 :=
  goodReader_bind (goodReader_readBytes 1) fun _ => goodReader_pure _

theorem goodReader_readIntW (w : Nat) : GoodReader (readIntW w) :=
  goodReader_bind (goodReader_readBytes w) fun _ => goodReader_pure _

/-! Running a reader on an encoded value followed by arbitrary trailing
bytes consumes exactly the encoding and returns the value. -/

theorem rdBind_run {α β : Type} {r : Reader α} {f : α → Reader β} {s s1 : List Nat}
    {a : α} (h : r s = some (a, s1)) : rdBind r f s = f a s1 := by
  unfold rdBind
  rw [h]

theorem rdPure_run {α : Type} (a : α) (s : List Nat) : rdPure a s = some (a, s) := rfl

theorem readBytes_run {w : Nat} {b : List Nat} (hb : b.length = w) (t : List Nat) :
    readBytes w (b ++ t) = some (b, t) := by
  unfold readBytes
  rw [if_pos (by rw [List.length_append, hb]; omega)]
  rw [List.take_left' hb, List.drop_left' hb]

theorem readU64_run {n : Nat} (h : n < 2 ^ 64) (t : List Nat) :
    readU64 (encU64 n ++ t) = some (n, t) := by
  unfold readU64 encU64
  rw [rdBind_run (readBytes_run (natLE_length 8 n) t)]
  unfold rdPure
  rw [leNat_natLE_of_lt (by rw [two_pow_8w_eq]; exact h)]

theorem readU32_run {n : Nat} (h : n < 2 ^ 32) (t : List Nat) :
    readU32 (encU32 n ++ t) = some (n, t) := by
  unfold readU32 encU32
  rw [rdBind_run (readBytes_run (natLE_length 4 n) t)]
  unfold rdPure
  rw [leNat_natLE_of_lt (by rw [two_pow_8w_eq]; exact h)]

theorem readU8_run {n : Nat} (h : n < 2 ^ 8) (t : List Nat) :
    readU8 (natLE 1 n ++ t) = some (n, t) := by
  unfold readU8
  rw [rdBind_run (readBytes_run (natLE_length 1 n) t)]
  unfold rdPure
  rw [leNat_natLE_of_lt (by rw [two_pow_8w_eq]; exact h)]

theorem readIntW_run {w : Nat} (hw : 0 < w) {z : Int} (hz : intFits w z) (t : List Nat) :
    readIntW w (intLE w z ++ t) = some (z, t) := by
  unfold readIntW
  rw [rdBind_run (readBytes_run (intLE_length w z) t)]
  unfold rdPure
  rw [leInt_intLE hw hz]

theorem goodReader_readVec {α : Type} {r : Reader α} (hr : GoodReader r) :
    GoodReader (readVec r) :=
  goodReader_bind goodReader_readU64 fun n => goodReader_readN hr n

theorem readN_run {α : Type} {r : Reader α} {f : α → List Nat} {l : List α}
    (helem : ∀ a ∈ l, ∀ t, r (f a ++ t) = some (a, t)) (t : List Nat) :
    readN r l.length ((l.map f).flatten ++ t) = some (l, t) := by
  induction l with
  | nil => simp [readN, rdPure]
  | cons a l ih =>
    have ha := helem a (List.mem_cons_self a l)
    simp only [List.map_cons, List.flatten, List.length_cons, readN, List.append_assoc]
    rw [rdBind_run (ha _)]
    rw [rdBind_run (ih (fun b hb t' => helem b (List.mem_cons_of_mem a hb) t') )]
    rfl

theorem readVec_run {α : Type} {r : Reader α} {f : α → List Nat} {l : List α}
    (hlen : l.length < 2 ^ 64)
    (helem : ∀ a ∈ l, ∀ t, r (f a ++ t) = some (a, t)) (t : List Nat) :
    readVec r (encVec f l ++ t) = some (l, t) := by
  unfold readVec encVec
  rw [List.append_assoc, rdBind_run (readU64_run hlen _)]
  exact readN_run helem t

/-! ## Run lemmas: each decoder inverts its encoder on the stream -/

theorem readBString_run {bs : List Nat} (h : bs.length < 2 ^ 64) (t : List Nat) :
    readBString (encBString bs ++ t) = some (bs, t) := by
  unfold readBString encBString
  rw [List.append_assoc, rdBind_run (readU64_run h _)]
  exact readBytes_run rfl t

theorem scalarMod_lt : scalarMod < 256 ^ 32 := by
  unfold scalarMod
  norm_num

theorem readScalar_run {n : Nat} (h : n < scalarMod) (t : List Nat) :
    readScalar (encScalar n ++ t) = some (n, t) := by
  unfold readScalar encScalar
  rw [rdBind_run (readBytes_run (natLE_length 32 n) t)]
  rw [leNat_natLE_of_lt (lt_trans h scalarMod_lt)]
  rw [if_pos h]
  rfl

theorem readBool_run (b : Bool) (t : List Nat) :
    readBool (encBool b ++ t) = some (b, t) := by
  cases b with
  | false =>
    show readBool (natLE 1 0 ++ t) = some (false, t)
    unfold readBool
    rw [rdBind_run (readU8_run (by norm_num) t)]
    rfl
  | true =>
    show readBool (natLE 1 1 ++ t) = some (true, t)
    unfold readBool
    rw [rdBind_run (readU8_run (by norm_num) t)]
    rfl

theorem readTimeUnit_run (u : PoSQLTimeUnit) (t : List Nat) :
    readTimeUnit (encTimeUnit u ++ t) = some (u, t) := by
  cases u <;>
    (unfold readTimeUnit encTimeUnit
     rw [rdBind_run (readU32_run (by norm_num) t)]
     simp [rdPure])

theorem readTimeZone_run {z : PoSQLTimeZone} (hz : wfZone z) (t : List Nat) :
    readTimeZone (encTimeZone z ++ t) = some (z, t) := by
  cases z with
  | utc =>
    unfold readTimeZone encTimeZone
    rw [rdBind_run (readU32_run (by norm_num) t)]
    simp [rdPure]
  | fixedOffset off =>
    unfold readTimeZone encTimeZone
    rw [List.append_assoc, rdBind_run (readU32_run (by norm_num) _)]
    show (rdBind (readIntW 4) fun z => rdPure (PoSQLTimeZone.fixedOffset z))
      (intLE 4 off ++ t) = some (PoSQLTimeZone.fixedOffset off, t)
    rw [rdBind_run (readIntW_run (by norm_num) hz t)]
    rfl

theorem readColumnType_run {ct : ColumnType} (h : wfColumnType ct) (t : List Nat) :
    readColumnType (encColumnType ct ++ t) = some (ct, t) := by
  cases ct with
  | decimal75 p s =>
    obtain ⟨hp, hs⟩ := h
    unfold readColumnType encColumnType
    rw [List.append_assoc, List.append_assoc,
      rdBind_run (readU32_run (by norm_num) _)]
    show (rdBind readU8 fun p2 => rdBind (readIntW 1) fun s2 =>
        rdPure (ColumnType.decimal75 p2 s2))
      (natLE 1 p ++ (intLE 1 s ++ t)) = some (ColumnType.decimal75 p s, t)
    rw [rdBind_run (readU8_run hp _), rdBind_run (readIntW_run (by norm_num) hs t)]
    rfl
  | timestampTZ u z =>
    unfold readColumnType encColumnType
    rw [List.append_assoc, List.append_assoc,
      rdBind_run (readU32_run (by norm_num) _)]
    show (rdBind readTimeUnit fun u2 => rdBind readTimeZone fun z2 =>
        rdPure (ColumnType.timestampTZ u2 z2))
      (encTimeUnit u ++ (encTimeZone z ++ t)) = some (ColumnType.timestampTZ u z, t)
    rw [rdBind_run (readTimeUnit_run u _), rdBind_run (readTimeZone_run h t)]
    rfl
  | boolean =>
    unfold readColumnType encColumnType
    rw [rdBind_run (readU32_run (by norm_num) t)]
    simp [rdPure]
  | smallInt =>
    unfold readColumnType encColumnType
    rw [rdBind_run (readU32_run (by norm_num) t)]
    simp [rdPure]
  | int =>
    unfold readColumnType encColumnType
    rw [rdBind_run (readU32_run (by norm_num) t)]
    simp [rdPure]
  | bigInt =>
    unfold readColumnType encColumnType
    rw [rdBind_run (readU32_run (by norm_num) t)]
    simp [rdPure]
  | varChar =>
    unfold readColumnType encColumnType
    rw [rdBind_run (readU32_run (by norm_num) t)]
    simp [rdPure]
  | int128 =>
    unfold readColumnType encColumnType
    rw [rdBind_run (readU32_run (by norm_num) t)]
    simp [rdPure]
  | scalar =>
    unfold readColumnType encColumnType
    rw [rdBind_run (readU32_run (by norm_num) t)]
    simp [rdPure]

theorem validIdent_len {bs : List Nat} (h : validIdent bs = true) :
    bs.length < 2 ^ 64 := by
  cases bs with
  | nil => simp [validIdent] at h
  | cons c rest =>
    simp only [validIdent, Bool.and_eq_true, decide_eq_true_eq] at h
    simp only [List.length_cons]
    omega

theorem wfColumnType_of {c : OwnedColumn} (hc : wfColumn c) {ct : ColumnType}
    (hct : columnTypeOf c = some ct) : wfColumnType ct := by
  cases c <;> simp only [columnTypeOf, Option.some.injEq] at hct <;>
    first
      | (subst hct; trivial)
      | (subst hct
         unfold wfColumn at hc
         unfold wfColumnType
         try exact ⟨hc.1, hc.2.1⟩
         try exact hc.1)
      | exact absurd hct (by simp)

theorem readColumnOfType_run {c : OwnedColumn} (hc : wfColumn c)
    {ct : ColumnType} (hct : columnTypeOf c = some ct)
    {body : List Nat} (hb : encColumnBody c = some body) (t : List Nat) :
    readColumnOfType ct (body ++ t) = some (c, t) := by
  cases c with
  | unknownVariant => exact absurd hc (by simp [wfColumn])
  | boolean v =>
    have hlen : v.length < 2 ^ 64 := hc
    simp only [columnTypeOf, Option.some.injEq] at hct
    simp only [encColumnBody, Option.some.injEq] at hb
    subst hct
    subst hb
    show (rdBind (readVec readBool) fun v2 => rdPure (OwnedColumn.boolean v2))
      (encVec encBool v ++ t) = some (OwnedColumn.boolean v, t)
    rw [rdBind_run (readVec_run hlen (fun a _ t2 => readBool_run a t2) t)]
    rfl
  | smallInt v =>
    obtain ⟨hlen, hv⟩ := hc
    simp only [columnTypeOf, Option.some.injEq] at hct
    simp only [encColumnBody, Option.some.injEq] at hb
    subst hct
    subst hb
    show (rdBind (readVec (readIntW 2)) fun v2 => rdPure (OwnedColumn.smallInt v2))
      (encVec (intLE 2) v ++ t) = some (OwnedColumn.smallInt v, t)
    rw [rdBind_run (readVec_run hlen
      (fun a ha t2 => readIntW_run (by norm_num) (hv a ha) t2) t)]
    rfl
  | int v =>
    obtain ⟨hlen, hv⟩ := hc
    simp only [columnTypeOf, Option.some.injEq] at hct
    simp only [encColumnBody, Option.some.injEq] at hb
    subst hct
    subst hb
    show (rdBind (readVec (readIntW 4)) fun v2 => rdPure (OwnedColumn.int v2))
      (encVec (intLE 4) v ++ t) = some (OwnedColumn.int v, t)
    rw [rdBind_run (readVec_run hlen
      (fun a ha t2 => readIntW_run (by norm_num) (hv a ha) t2) t)]
    rfl
  | bigInt v =>
    obtain ⟨hlen, hv⟩ := hc
    simp only [columnTypeOf, Option.some.injEq] at hct
    simp only [encColumnBody, Option.some.injEq] at hb
    subst hct
    subst hb
    show (rdBind (readVec (readIntW 8)) fun v2 => rdPure (OwnedColumn.bigInt v2))
      (encVec (intLE 8) v ++ t) = some (OwnedColumn.bigInt v, t)
    rw [rdBind_run (readVec_run hlen
      (fun a ha t2 => readIntW_run (by norm_num) (hv a ha) t2) t)]
    rfl
  | varChar v =>
    obtain ⟨hlen, hv⟩ := hc
    simp only [columnTypeOf, Option.some.injEq] at hct
    simp only [encColumnBody, Option.some.injEq] at hb
    subst hct
    subst hb
    show (rdBind (readVec readBString) fun v2 => rdPure (OwnedColumn.varChar v2))
      (encVec encBString v ++ t) = some (OwnedColumn.varChar v, t)
    rw [rdBind_run (readVec_run hlen
      (fun a ha t2 => readBString_run (hv a ha) t2) t)]
    rfl
  | int128 v =>
    obtain ⟨hlen, hv⟩ := hc
    simp only [columnTypeOf, Option.some.injEq] at hct
    simp only [encColumnBody, Option.some.injEq] at hb
    subst hct
    subst hb
    show (rdBind (readVec (readIntW 16)) fun v2 => rdPure (OwnedColumn.int128 v2))
      (encVec (intLE 16) v ++ t) = some (OwnedColumn.int128 v, t)
    rw [rdBind_run (readVec_run hlen
      (fun a ha t2 => readIntW_run (by norm_num) (hv a ha) t2) t)]
    rfl
  | scalar v =>
    obtain ⟨hlen, hv⟩ := hc
    simp only [columnTypeOf, Option.some.injEq] at hct
    simp only [encColumnBody, Option.some.injEq] at hb
    subst hct
    subst hb
    show (rdBind (readVec readScalar) fun v2 => rdPure (OwnedColumn.scalar v2))
      (encVec encScalar v ++ t) = some (OwnedColumn.scalar v, t)
    rw [rdBind_run (readVec_run hlen
      (fun a ha t2 => readScalar_run (hv a ha) t2) t)]
    rfl
  | decimal75 p s v =>
    obtain ⟨hp, hs, hlen, hv⟩ := hc
    simp only [columnTypeOf, Option.some.injEq] at hct
    simp only [encColumnBody, Option.some.injEq] at hb
    subst hct
    subst hb
    show (rdBind readU8 fun p2 => rdBind (readIntW 1) fun s2 =>
        rdBind (readVec readScalar) fun v2 =>
          rdPure (OwnedColumn.decimal75 p2 s2 v2))
      (natLE 1 p ++ intLE 1 s ++ encVec encScalar v ++ t) =
      some (OwnedColumn.decimal75 p s v, t)
    rw [List.append_assoc, List.append_assoc]
    rw [rdBind_run (readU8_run hp _)]
    rw [rdBind_run (readIntW_run (by norm_num) hs _)]
    rw [rdBind_run (readVec_run hlen
      (fun a ha t2 => readScalar_run (hv a ha) t2) t)]
    rfl
  | timestampTZ u z v =>
    obtain ⟨hz, hlen, hv⟩ := hc
    simp only [columnTypeOf, Option.some.injEq] at hct
    simp only [encColumnBody, Option.some.injEq] at hb
    subst hct
    subst hb
    show (rdBind readTimeUnit fun u2 => rdBind readTimeZone fun z2 =>
        rdBind (readVec (readIntW 8)) fun v2 =>
          rdPure (OwnedColumn.timestampTZ u2 z2 v2))
      (encTimeUnit u ++ encTimeZone z ++ encVec (intLE 8) v ++ t) =
      some (OwnedColumn.timestampTZ u z v, t)
    rw [List.append_assoc, List.append_assoc]
    rw [rdBind_run (readTimeUnit_run u _)]
    rw [rdBind_run (readTimeZone_run hz _)]
    rw [rdBind_run (readVec_run hlen
      (fun a ha t2 => readIntW_run (by norm_num) (hv a ha) t2) t)]
    rfl

theorem identTryNew_valid {k : Ident} (hk : validIdent k = true) :
    identTryNew k = some k := by
  unfold identTryNew
  rw [if_pos hk]

theorem readTableEntry_run {k : Ident} {c : OwnedColumn}
    (hk : validIdent k = true) (hc : wfColumn c)
    {e : List Nat} (he : encTableEntry (k, c) = some e) (t : List Nat) :
    readTableEntry (e ++ t) = some ((k, c), t) := by
  unfold encTableEntry at he
  cases hct : columnTypeOf c with
  | none => rw [hct] at he; exact absurd he (by simp)
  | some ct =>
    cases hbody : encColumnBody c with
    | none => rw [hct, hbody] at he; exact absurd he (by simp)
    | some body =>
      rw [hct, hbody] at he
      simp only [Option.some.injEq] at he
      subst he
      unfold readTableEntry
      rw [List.append_assoc, List.append_assoc]
      rw [rdBind_run (readBString_run (validIdent_len hk) _)]
      rw [rdBind_run (readColumnType_run (wfColumnType_of hc hct) _)]
      show (match identTryNew k with
        | none => none
        | some ident =>
          (rdBind (readColumnOfType ct) fun col => rdPure (ident, col))
            (body ++ t)) = some ((k, c), t)
      rw [identTryNew_valid hk]
      show (rdBind (readColumnOfType ct) fun col => rdPure (k, col))
        (body ++ t) = some ((k, c), t)
      rw [rdBind_run (readColumnOfType_run hc hct hbody t)]
      rfl

theorem readColumnRef_run {c : ColumnRef} (hc : wfColumnRef c) (t : List Nat) :
    readColumnRef (encColumnRef c ++ t) = some (c, t) := by
  obtain ⟨h1, h2, h3⟩ := hc
  obtain ⟨tr, ci, ct⟩ := c
  unfold readColumnRef encColumnRef
  rw [List.append_assoc, List.append_assoc]
  rw [rdBind_run (readBString_run h1 _)]
  rw [rdBind_run (readBString_run h2 _)]
  rw [rdBind_run (readColumnType_run h3 t)]
  rfl

theorem readPlan_run {p : DynProofPlan} (hp : wfPlan p) (t : List Nat) :
    readPlan (encPlan p ++ t) = some (p, t) := by
  obtain ⟨h1, h2, h3⟩ := hp
  obtain ⟨refs, payload⟩ := p
  unfold readPlan encPlan
  rw [List.append_assoc]
  rw [rdBind_run (readVec_run h1 (fun c hc t2 => readColumnRef_run (h3 c hc) t2) _)]
  rw [rdBind_run (readBString_run h2 t)]
  rfl

theorem readMetadata_run {md : ColumnCommitmentMetadata} (hm : wfMetadata md)
    (t : List Nat) : readMetadata (encMetadata md ++ t) = some (md, t) := by
  obtain ⟨h1, h2⟩ := hm
  obtain ⟨ct, b⟩ := md
  unfold readMetadata encMetadata
  rw [List.append_assoc]
  rw [rdBind_run (readColumnType_run h1 _)]
  rw [rdBind_run (readBString_run h2 t)]
  rfl

theorem readIdentMeta_run {kv : Ident × ColumnCommitmentMetadata}
    (h1 : kv.1.length < 2 ^ 64) (h2 : wfMetadata kv.2) (t : List Nat) :
    readIdentMeta (encIdentMeta kv ++ t) = some (kv, t) := by
  obtain ⟨k, md⟩ := kv
  unfold readIdentMeta encIdentMeta
  rw [List.append_assoc]
  rw [rdBind_run (readBString_run h1 _)]
  rw [rdBind_run (readMetadata_run h2 t)]
  rfl

theorem readTableCommitment_run {tc : TableCommitment} (htc : wfTableCommitment tc)
    (t : List Nat) : readTableCommitment (encTableCommitment tc ++ t) = some (tc, t) := by
  obtain ⟨h1, h2, h3, h4, h5⟩ := htc
  obtain ⟨⟨cs, md⟩, r0, r1⟩ := tc
  unfold readTableCommitment encTableCommitment
  rw [List.append_assoc, List.append_assoc, List.append_assoc]
  rw [rdBind_run (readBString_run h1 _)]
  rw [rdBind_run (readVec_run h2
    (fun kv hkv t2 => readIdentMeta_run (h5 kv hkv).1 (h5 kv hkv).2 t2) _)]
  rw [rdBind_run (readU64_run h3 _)]
  rw [rdBind_run (readU64_run h4 t)]
  rfl

theorem readRefComm_run {kv : TableRef × TableCommitment}
    (h1 : kv.1.length < 2 ^ 64) (h2 : wfTableCommitment kv.2) (t : List Nat) :
    readRefComm (encRefComm kv ++ t) = some (kv, t) := by
  obtain ⟨tr, tc⟩ := kv
  unfold readRefComm encRefComm
  rw [List.append_assoc]
  rw [rdBind_run (readBString_run h1 _)]
  rw [rdBind_run (readTableCommitment_run h2 t)]
  rfl

theorem readQueryCommitments_run {m : QueryCommitments}
    (hm : wfQueryCommitments m) (t : List Nat) :
    readQueryCommitments (encQueryCommitments m ++ t) = some (m, t) := by
  obtain ⟨h1, h2⟩ := hm
  unfold readQueryCommitments encQueryCommitments
  exact readVec_run h1
    (fun kv hkv t2 => readRefComm_run (h2 kv hkv).1 (h2 kv hkv).2 t2) t

/-! ## Index-map and table lemmas -/

theorem imInsert_append {β : Type} {m : List (Ident × β)} {k : Ident}
    (hk : ∀ kv ∈ m, kv.1 ≠ k) (v : β) :
    imInsert m k v = m ++ [(k, v)] := by
  unfold imInsert
  rw [if_neg]
  simp only [List.any_eq_true, decide_eq_true_eq, not_exists]
  intro kv
  simp only [not_and]
  exact hk kv

theorem imFromIter_go {β : Type} (l : List (Ident × β)) :
    ∀ acc : List (Ident × β), ((acc ++ l).map Prod.fst).Nodup →
      l.foldl (fun m kv => imInsert m kv.1 kv.2) acc = acc ++ l := by
  induction l with
  | nil =>
    intro acc _
    simp
  | cons kv rest ih =>
    intro acc h
    have hnd := h
    rw [List.map_append, List.nodup_append] at hnd
    obtain ⟨_, _, hdisj⟩ := hnd
    have hk : ∀ kv2 ∈ acc, kv2.1 ≠ kv.1 := by
      intro kv2 hkv2 heq
      exact hdisj (List.mem_map_of_mem Prod.fst hkv2)
        (by rw [heq, List.map_cons]; exact List.mem_cons_self _ _)
    simp only [List.foldl_cons]
    rw [imInsert_append hk kv.2]
    have hacc : ((acc ++ [(kv.1, kv.2)]) ++ rest).map Prod.fst =
        (acc ++ kv :: rest).map Prod.fst := by
      rw [List.append_assoc]
      rfl
    rw [ih (acc ++ [(kv.1, kv.2)]) (by rw [hacc]; exact h)]
    rw [List.append_assoc]
    rfl

theorem imFromIter_nodup {β : Type} {l : List (Ident × β)}
    (h : (l.map Prod.fst).Nodup) : imFromIter l = l := by
  unfold imFromIter
  have := imFromIter_go l [] (by simpa using h)
  simpa using this

theorem tableLengthsOk_iff (t : OwnedTable) :
    tableLengthsOk t = true ↔
      ∀ kv1 ∈ t, ∀ kv2 ∈ t, numRows kv1.2 = numRows kv2.2 := by
  cases t with
  | nil => simp [tableLengthsOk]
  | cons hd tl =>
    obtain ⟨k, c⟩ := hd
    simp only [tableLengthsOk, List.all_eq_true, beq_iff_eq]
    constructor
    · intro h kv1 h1 kv2 h2
      have e1 : numRows kv1.2 = numRows c := by
        rcases List.mem_cons.mp h1 with h1 | h1
        · rw [h1]
        · exact h kv1 h1
      have e2 : numRows kv2.2 = numRows c := by
        rcases List.mem_cons.mp h2 with h2 | h2
        · rw [h2]
        · exact h kv2 h2
      rw [e1, e2]
    · intro h kv hkv
      exact h kv (List.mem_cons_of_mem _ hkv) (k, c) (List.mem_cons_self _ _)

theorem tryNew_lengthsOk {m t : OwnedTable} (h : OwnedTable.tryNew m = some t) :
    tableLengthsOk t = true ∧ t = m := by
  unfold OwnedTable.tryNew at h
  split at h
  · next hok =>
    simp only [Option.some.injEq] at h
    exact ⟨h ▸ hok, h.symm⟩
  · exact absurd h (by simp)

theorem tryNew_fails {m : OwnedTable} (h : tableLengthsOk m = false) :
    OwnedTable.tryNew m = none := by
  unfold OwnedTable.tryNew
  rw [if_neg (by rw [h]; exact Bool.false_ne_true)]

theorem tryFromIter_lengthsOk {l : List (Ident × OwnedColumn)} {t : OwnedTable}
    (h : OwnedTable.tryFromIter l = some t) : tableLengthsOk t = true :=
  (tryNew_lengthsOk h).1

/-! ## Table-entry section lemmas -/

theorem encTableEntry_some {k : Ident} {c : OwnedColumn} (hc : wfColumn c) :
    ∃ e, encTableEntry (k, c) = some e := by
  cases c with
  | unknownVariant => exact absurd hc not_false
  | boolean v => exact ⟨_, rfl⟩
  | smallInt v => exact ⟨_, rfl⟩
  | int v => exact ⟨_, rfl⟩
  | bigInt v => exact ⟨_, rfl⟩
  | varChar v => exact ⟨_, rfl⟩
  | int128 v => exact ⟨_, rfl⟩
  | decimal75 p s v => exact ⟨_, rfl⟩
  | scalar v => exact ⟨_, rfl⟩
  | timestampTZ u z v => exact ⟨_, rfl⟩

theorem encTableEntries_some {l : List (Ident × OwnedColumn)}
    (h : ∀ kv ∈ l, wfColumn kv.2) : ∃ body, encTableEntries l = some body := by
  induction l with
  | nil => exact ⟨[], rfl⟩
  | cons kv rest ih =>
    obtain ⟨e, he⟩ : ∃ e, encTableEntry (kv.1, kv.2) = some e :=
      encTableEntry_some (h kv (List.mem_cons_self _ _))
    obtain ⟨es, hes⟩ := ih fun kv2 hkv2 => h kv2 (List.mem_cons_of_mem _ hkv2)
    refine ⟨e ++ es, ?_⟩
    unfold encTableEntries
    rw [show encTableEntry kv = some e from he, hes]

theorem encTableEntry_ne_nil {kv : Ident × OwnedColumn} {e : List Nat}
    (he : encTableEntry kv = some e) : e ≠ [] := by
  unfold encTableEntry at he
  cases h1 : columnTypeOf kv.2 with
  | none => rw [h1] at he; exact absurd he (by simp)
  | some ct =>
    cases h2 : encColumnBody kv.2 with
    | none => rw [h1, h2] at he; exact absurd he (by simp)
    | some body =>
      rw [h1, h2] at he
      simp only [Option.some.injEq] at he
      subst he
      have hlen : (encBString kv.1).length = 8 + kv.1.length := by
        unfold encBString encU64
        rw [List.length_append, natLE_length]
      intro hcon
      have := congrArg List.length hcon
      rw [List.length_append, List.length_append, hlen] at this
      simp at this

theorem readTableEntries_run {l : List (Ident × OwnedColumn)}
    (hwf : ∀ kv ∈ l, validIdent kv.1 = true ∧ wfColumn kv.2)
    {body : List Nat} (hb : encTableEntries l = some body) (t : List Nat) :
    readTableEntries l.length (body ++ t) = some (l, t) := by
  induction l generalizing body with
  | nil =>
    simp only [encTableEntries, Option.some.injEq] at hb
    subst hb
    simp [readTableEntries, rdPure]
  | cons kv rest ih =>
    unfold encTableEntries at hb
    cases he : encTableEntry kv with
    | none => rw [he] at hb; exact absurd hb (by simp)
    | some e =>
      cases hes : encTableEntries rest with
      | none => rw [he, hes] at hb; exact absurd hb (by simp)
      | some es =>
        rw [he, hes] at hb
        simp only [Option.some.injEq] at hb
        subst hb
        show readTableEntries (rest.length + 1) (e ++ es ++ t) = some (kv :: rest, t)
        unfold readTableEntries
        rw [if_neg (by
          intro hemp
          rw [List.isEmpty_iff] at hemp
          rcases List.append_eq_nil.mp hemp with ⟨hemp1, _⟩
          rcases List.append_eq_nil.mp hemp1 with ⟨hemp2, _⟩
          exact encTableEntry_ne_nil he hemp2)]
        rw [List.append_assoc]
        rw [rdBind_run (readTableEntry_run (hwf kv (List.mem_cons_self _ _)).1
          (hwf kv (List.mem_cons_self _ _)).2 he _)]
        rw [rdBind_run (ih (fun kv2 hkv2 => hwf kv2 (List.mem_cons_of_mem _ hkv2)) hes)]
        rfl

/-- The declared count bounds the table-decode loop, and a shortfall
happens only at the end of the stream. -/
theorem readTableEntries_bound {n : Nat} {s : List Nat}
    {entries : List (Ident × OwnedColumn)} {rest : List Nat}
    (h : readTableEntries n s = some (entries, rest)) :
    entries.length ≤ n ∧ (entries.length < n → rest = []) := by
  induction n generalizing s entries rest with
  | zero =>
    simp only [readTableEntries, rdPure, Option.some.injEq, Prod.mk.injEq] at h
    obtain ⟨h1, _⟩ := h
    subst h1
    simp
  | succ n ih =>
    unfold readTableEntries at h
    split at h
    · next hemp =>
      simp only [Option.some.injEq, Prod.mk.injEq] at h
      obtain ⟨h1, h2⟩ := h
      subst h1
      subst h2
      rw [List.isEmpty_iff] at hemp
      simp [hemp]
    · next hemp =>
      unfold rdBind at h
      cases h1 : readTableEntry s with
      | none =>
        simp only [h1] at h
        exact absurd h (by simp)
      | some v =>
        obtain ⟨e1, s1⟩ := v
        simp only [h1] at h
        cases h2 : readTableEntries n s1 with
        | none =>
          simp only [h2] at h
          exact absurd h (by simp)
        | some v2 =>
          obtain ⟨es, s2⟩ := v2
          simp only [h2, rdPure, Option.some.injEq, Prod.mk.injEq] at h
          obtain ⟨h3, h4⟩ := h
          subst h3
          subst h4
          obtain ⟨hb1, hb2⟩ := ih h2
          constructor
          · simp only [List.length_cons]
            omega
          · intro hlt
            exact hb2 (by simp only [List.length_cons] at hlt; omega)

/-! ## Bundle round trip and inversion -/

set_option maxHeartbeats 1000000 in
theorem pubsReader_run {p : DoryPublicInput} (h : wfBundle p) {body : List Nat}
    (hbody : encTableEntries p.query_data.table = some body) :
    pubsReader (encPlan p.expr ++ encQueryCommitments p.commitments ++
      encU32 p.query_data.table.length ++ body ++
      p.query_data.verification_hash) = some (p, []) := by
  obtain ⟨hp, hq, htw, hhash⟩ := h
  obtain ⟨hlen32, hnodup, hlok, hentries⟩ := htw
  have htfi : OwnedTable.tryFromIter p.query_data.table =
      some p.query_data.table := by
    unfold OwnedTable.tryFromIter
    rw [imFromIter_nodup hnodup]
    unfold OwnedTable.tryNew
    rw [if_pos hlok]
  unfold pubsReader
  simp only [List.append_assoc]
  refine (rdBind_run (readPlan_run hp _)).trans ?_
  refine (rdBind_run (readQueryCommitments_run hq _)).trans ?_
  refine (rdBind_run (readU32_run hlen32 _)).trans ?_
  refine (rdBind_run (readTableEntries_run hentries hbody _)).trans ?_
  show (match OwnedTable.tryFromIter p.query_data.table with
    | none => none
    | some table =>
      (rdBind (readBytes 32) fun verification_hash =>
        rdPure (DoryPublicInput.mk p.expr p.commitments
          ⟨table, verification_hash⟩)) p.query_data.verification_hash) =
    some (p, [])
  rw [htfi]
  show (rdBind (readBytes 32) fun verification_hash =>
    rdPure (DoryPublicInput.mk p.expr p.commitments
      ⟨p.query_data.table, verification_hash⟩))
    p.query_data.verification_hash = some (p, [])
  have hrb : readBytes 32 p.query_data.verification_hash =
      some (p.query_data.verification_hash, []) := by
    have hx := readBytes_run (w := 32) (b := p.query_data.verification_hash)
      hhash []
    rwa [List.append_nil] at hx
  rw [rdBind_run hrb]
  rfl

theorem imInsert_length_le {β : Type} (m : List (Ident × β)) (k : Ident) (v : β) :
    (imInsert m k v).length ≤ m.length + 1 := by
  unfold imInsert
  split
  · rw [List.length_map]
    omega
  · rw [List.length_append]
    simp

theorem imFromIter_go_length {β : Type} (l : List (Ident × β)) :
    ∀ acc : List (Ident × β),
      (l.foldl (fun m kv => imInsert m kv.1 kv.2) acc).length ≤
        acc.length + l.length := by
  induction l with
  | nil => intro acc; simp
  | cons kv rest ih =>
    intro acc
    simp only [List.foldl_cons, List.length_cons]
    calc (rest.foldl (fun m kv => imInsert m kv.1 kv.2)
        (imInsert acc kv.1 kv.2)).length ≤
        (imInsert acc kv.1 kv.2).length + rest.length := ih _
    _ ≤ acc.length + 1 + rest.length := by
        have := imInsert_length_le acc kv.1 kv.2
        omega
    _ = acc.length + (rest.length + 1) := by omega

theorem imFromIter_length_le {β : Type} (l : List (Ident × β)) :
    (imFromIter l).length ≤ l.length := by
  have := imFromIter_go_length l []
  simpa using this

/-- Inversion of a successful `from_bytes`: the decode stages it ran
and the properties of the table it produced. -/
theorem from_bytes_inv {bytes : List Nat} {b : DoryPublicInput}
    (h : DoryPublicInput.from_bytes bytes = some b) :
    ∃ plan comms count s1 s2 s3 entries rest hash rest2,
      readPlan bytes = some (plan, s1) ∧
      readQueryCommitments s1 = some (comms, s2) ∧
      readU32 s2 = some (count, s3) ∧
      readTableEntries count s3 = some (entries, rest) ∧
      OwnedTable.tryFromIter entries = some b.query_data.table ∧
      readBytes 32 rest = some (hash, rest2) ∧
      b = DoryPublicInput.mk plan comms ⟨imFromIter entries, hash⟩ := by
  unfold DoryPublicInput.from_bytes at h
  cases hr : pubsReader bytes with
  | none => rw [hr] at h; exact absurd h (by simp)
  | some v =>
    obtain ⟨b2, leftover⟩ := v
    rw [hr] at h
    simp only [Option.some.injEq] at h
    subst h
    unfold pubsReader rdBind at hr
    cases h1 : readPlan bytes with
    | none =>
      simp only [h1] at hr
      exact absurd hr (by simp)
    | some v1 =>
      obtain ⟨plan, s1⟩ := v1
      simp only [h1] at hr
      cases h2 : readQueryCommitments s1 with
      | none =>
        simp only [h2] at hr
        exact absurd hr (by simp)
      | some v2 =>
        obtain ⟨comms, s2⟩ := v2
        simp only [h2] at hr
        cases h3 : readU32 s2 with
        | none =>
          simp only [h3] at hr
          exact absurd hr (by simp)
        | some v3 =>
          obtain ⟨count, s3⟩ := v3
          simp only [h3] at hr
          cases h4 : readTableEntries count s3 with
          | none =>
            simp only [h4] at hr
            exact absurd hr (by simp)
          | some v4 =>
            obtain ⟨entries, rest⟩ := v4
            simp only [h4] at hr
            cases h5 : OwnedTable.tryFromIter entries with
            | none =>
              simp only [h5] at hr
              exact absurd hr (by simp)
            | some table =>
              simp only [h5] at hr
              cases h6 : readBytes 32 rest with
              | none =>
                simp only [h6] at hr
                exact absurd hr (by simp)
              | some v6 =>
                obtain ⟨hash, rest2⟩ := v6
                simp only [h6, rdPure, Option.some.injEq,
                  Prod.mk.injEq] at hr
                obtain ⟨hb2, _⟩ := hr
                have htab : table = imFromIter entries := by
                  unfold OwnedTable.tryFromIter OwnedTable.tryNew at h5
                  split at h5
                  · simpa using h5.symm
                  · exact absurd h5 (by simp)
                refine ⟨plan, comms, count, s1, s2, s3, entries, rest,
                  hash, rest2, rfl, h2, h3, h4, ?_, h6, ?_⟩
                · rw [← hb2]
                  exact h5
                · rw [← hb2, htab]

theorem from_bytes_lengthsOk {bytes : List Nat} {b : DoryPublicInput}
    (h : DoryPublicInput.from_bytes bytes = some b) :
    tableLengthsOk b.query_data.table = true := by
  obtain ⟨_, _, _, _, _, _, _, _, _, _, _, _, _, _, h5, _, _⟩ := from_bytes_inv h
  exact tryFromIter_lengthsOk h5

/-! ## Cross-check lemmas -/

theorem crossCheck_err_kind {refs : List ColumnRef} {m : QueryCommitments}
    {e : VerifyError} (h : crossCheck refs m = .error e) : e = .InvalidInput := by
  induction refs with
  | nil => simp [crossCheck] at h
  | cons c rest ih =>
    unfold crossCheck at h
    cases h1 : qcGet m c.table_ref with
    | none =>
      simp only [h1, Except.error.injEq] at h
      exact h.symm
    | some tc =>
      simp only [h1] at h
      cases h2 : tc.column_commitments.get_metadata c.column_id with
      | none =>
        simp only [h2] at h
        exact ih h
      | some md =>
        simp only [h2] at h
        split at h
        · simp only [Except.error.injEq] at h
          exact h.symm
        · exact ih h

theorem crossCheck_missing_table {refs : List ColumnRef} {m : QueryCommitments}
    (h : ∃ c ∈ refs, qcGet m c.table_ref = none) :
    crossCheck refs m = .error .InvalidInput := by
  induction refs with
  | nil =>
    obtain ⟨c, hc, _⟩ := h
    simp at hc
  | cons c0 rest ih =>
    obtain ⟨c, hc, hnone⟩ := h
    rcases List.mem_cons.mp hc with rfl | hmem
    · unfold crossCheck
      rw [hnone]
    · unfold crossCheck
      cases h1 : qcGet m c0.table_ref with
      | none => simp only [h1]
      | some tc =>
        simp only [h1]
        cases h2 : tc.column_commitments.get_metadata c0.column_id with
        | none =>
          simp only [h2]
          exact ih ⟨c, hmem, hnone⟩
        | some md =>
          simp only [h2]
          split
          · rfl
          · exact ih ⟨c, hmem, hnone⟩

theorem crossCheck_type_mismatch {refs : List ColumnRef} {m : QueryCommitments}
    {c : ColumnRef} {tc : TableCommitment} {md : ColumnCommitmentMetadata}
    (hc : c ∈ refs) (h1 : qcGet m c.table_ref = some tc)
    (h2 : tc.column_commitments.get_metadata c.column_id = some md)
    (h3 : md.column_type ≠ c.column_type) :
    crossCheck refs m = .error .InvalidInput := by
  induction refs with
  | nil => simp at hc
  | cons c0 rest ih =>
    rcases List.mem_cons.mp hc with rfl | hmem
    · unfold crossCheck
      simp only [h1, h2]
      rw [if_pos h3]
    · unfold crossCheck
      cases h4 : qcGet m c0.table_ref with
      | none => simp only [h4]
      | some tc0 =>
        simp only [h4]
        cases h5 : tc0.column_commitments.get_metadata c0.column_id with
        | none =>
          simp only [h5]
          exact ih hmem
        | some md0 =>
          simp only [h5]
          split
          · rfl
          · exact ih hmem

/-! ## Verification-key lemmas -/

theorem readGT_run {n : Nat} (h : n < 256 ^ GT_SERIALIZED_SIZE) (t : List Nat) :
    readGT (encGT n ++ t) = some (n, t) := by
  unfold readGT encGT
  rw [rdBind_run (readBytes_run (natLE_length _ n) t)]
  unfold rdPure
  rw [leNat_natLE_of_lt h]

theorem readG1_run {n : Nat} (h : n < 256 ^ G1_AFFINE_SERIALIZED_SIZE) (t : List Nat) :
    readG1 (encG1 n ++ t) = some (n, t) := by
  unfold readG1 encG1
  rw [rdBind_run (readBytes_run (natLE_length _ n) t)]
  unfold rdPure
  rw [leNat_natLE_of_lt h]

theorem readG2_run {n : Nat} (h : n < 256 ^ G2_AFFINE_SERIALIZED_SIZE) (t : List Nat) :
    readG2 (encG2 n ++ t) = some (n, t) := by
  unfold readG2 encG2
  rw [rdBind_run (readBytes_run (natLE_length _ n) t)]
  unfold rdPure
  rw [leNat_natLE_of_lt h]

set_option maxHeartbeats 1000000 in
theorem readVerificationKey_run {vk : VerificationKey} (h : wfVK vk)
    (t : List Nat) : readVerificationKey (vk.to_bytes ++ t) = some (vk, t) := by
  obtain ⟨h1, h2, h3, h4, h5, h6, h7, h8, h9, h10, h11, h12, h13⟩ := h
  obtain ⟨⟨d1L, d1R, d2L, d2R, chi, g10, hg1, g20, hg2, g2f, hT, mn⟩, sg⟩ := vk
  unfold readVerificationKey VerificationKey.to_bytes
  simp only [List.append_assoc]
  refine (rdBind_run (readVec_run h1.1
    (fun a ha t2 => readGT_run (h1.2 a ha) t2) _)).trans ?_
  refine (rdBind_run (readVec_run h2.1
    (fun a ha t2 => readGT_run (h2.2 a ha) t2) _)).trans ?_
  refine (rdBind_run (readVec_run h3.1
    (fun a ha t2 => readGT_run (h3.2 a ha) t2) _)).trans ?_
  refine (rdBind_run (readVec_run h4.1
    (fun a ha t2 => readGT_run (h4.2 a ha) t2) _)).trans ?_
  refine (rdBind_run (readVec_run h5.1
    (fun a ha t2 => readGT_run (h5.2 a ha) t2) _)).trans ?_
  refine (rdBind_run (readG1_run h6 _)).trans ?_
  refine (rdBind_run (readG1_run h7 _)).trans ?_
  refine (rdBind_run (readG2_run h8 _)).trans ?_
  refine (rdBind_run (readG2_run h9 _)).trans ?_
  refine (rdBind_run (readG2_run h10 _)).trans ?_
  refine (rdBind_run (readGT_run h11 _)).trans ?_
  refine (rdBind_run (readU64_run h12 _)).trans ?_
  refine (rdBind_run (readU64_run h13 _)).trans ?_
  rfl

theorem goodReader_readGT : GoodReader readGT :=
  goodReader_bind (goodReader_readBytes _) fun _ => goodReader_pure _

theorem goodReader_readG1 : GoodReader readG1 :=
  goodReader_bind (goodReader_readBytes _) fun _ => goodReader_pure _

theorem goodReader_readG2 : GoodReader readG2 :=
  goodReader_bind (goodReader_readBytes _) fun _ => goodReader_pure _

theorem goodReader_readVerificationKey : GoodReader readVerificationKey := by
  unfold readVerificationKey
  refine goodReader_bind (goodReader_readVec goodReader_readGT) fun _ => ?_
  refine goodReader_bind (goodReader_readVec goodReader_readGT) fun _ => ?_
  refine goodReader_bind (goodReader_readVec goodReader_readGT) fun _ => ?_
  refine goodReader_bind (goodReader_readVec goodReader_readGT) fun _ => ?_
  refine goodReader_bind (goodReader_readVec goodReader_readGT) fun _ => ?_
  refine goodReader_bind goodReader_readG1 fun _ => ?_
  refine goodReader_bind goodReader_readG1 fun _ => ?_
  refine goodReader_bind goodReader_readG2 fun _ => ?_
  refine goodReader_bind goodReader_readG2 fun _ => ?_
  refine goodReader_bind goodReader_readG2 fun _ => ?_
  refine goodReader_bind goodReader_readGT fun _ => ?_
  refine goodReader_bind goodReader_readU64 fun _ => ?_
  refine goodReader_bind goodReader_readU64 fun _ => ?_
  exact goodReader_pure _

/-- `try_from` on a serialized key followed by any trailing garbage
succeeds and returns the key: only a prefix of the buffer is consumed,
so no exact-length validation can be happening. -/
theorem vkTryFrom_trailing {vk : VerificationKey} (h : wfVK vk)
    (extra : List Nat) :
    VerificationKey.try_from (vk.to_bytes ++ extra) = .ok vk := by
  unfold VerificationKey.try_from
  rw [readVerificationKey_run h extra]

/-- `try_from` on a strict prefix of a serialized key fails with
`InvalidVerificationKey`: the deserializer runs out of bytes. -/
theorem vkTryFrom_truncated {vk : VerificationKey} (h : wfVK vk) {n : Nat}
    (hn : n < vk.to_bytes.length) :
    VerificationKey.try_from (vk.to_bytes.take n) =
      .error .InvalidVerificationKey := by
  unfold VerificationKey.try_from
  cases hr : readVerificationKey (vk.to_bytes.take n) with
  | none => rfl
  | some v =>
    obtain ⟨vk2, rest2⟩ := v
    exfalso
    obtain ⟨pre, hpre, hrun⟩ := goodReader_readVerificationKey _ _ _ hr
    have hsplit : vk.to_bytes = pre ++ (rest2 ++ vk.to_bytes.drop n) := by
      conv_lhs => rw [← List.take_append_drop n vk.to_bytes]
      rw [hpre, List.append_assoc]
    have hfull : readVerificationKey (vk.to_bytes ++ []) = some (vk, []) :=
      readVerificationKey_run h []
    rw [List.append_nil, hsplit, hrun (rest2 ++ vk.to_bytes.drop n)] at hfull
    simp only [Option.some.injEq, Prod.mk.injEq] at hfull
    obtain ⟨_, hnil⟩ := hfull
    rcases List.append_eq_nil.mp hnil with ⟨_, hdrop⟩
    have := congrArg List.length hdrop
    rw [List.length_drop] at this
    simp only [List.length_nil] at this
    omega

theorem encVec_length_fixed {α : Type} {f : α → List Nat} {w : Nat}
    (hf : ∀ a, (f a).length = w) (l : List α) :
    (encVec f l).length = 8 + l.length * w := by
  unfold encVec encU64
  rw [List.length_append, natLE_length]
  congr 1
  induction l with
  | nil => simp
  | cons a rest ih =>
    simp only [List.map_cons, List.flatten_cons, List.length_append,
      List.length_cons, hf, ih]
    ring

/-- The byte length of a serialized key built by
`VerificationKey::new` is the closed form `serialized_size(max_nu)`. -/
theorem toBytes_new_length (params : PublicParameters) (sigma : Nat) :
    (VerificationKey.new params sigma).to_bytes.length =
      VerificationKey.serialized_size params.max_nu := by
  have hv : (encVec encGT
      (List.replicate (params.max_nu + 1) params.gtSeed)).length =
      8 + (params.max_nu + 1) * GT_SERIALIZED_SIZE := by
    rw [encVec_length_fixed (f := encGT) (fun a => natLE_length GT_SERIALIZED_SIZE a),
      List.length_replicate]
  unfold VerificationKey.new VerificationKey.to_bytes VerifierSetup.fromParams
    VerificationKey.serialized_size
  simp only [List.length_append, hv, encG1, encG2, encGT, encU64, natLE_length]
  unfold GT_SERIALIZED_SIZE G1_AFFINE_SERIALIZED_SIZE
    G2_AFFINE_SERIALIZED_SIZE usizeSize
  omega

/-! ## Helper lemmas for `into_bytes` totality -/

theorem encTableEntry_some_of_known {k : Ident} {c : OwnedColumn}
    (hc : c ≠ .unknownVariant) : ∃ e, encTableEntry (k, c) = some e := by
  cases c with
  | unknownVariant => exact absurd rfl hc
  | boolean v => exact ⟨_, rfl⟩
  | smallInt v => exact ⟨_, rfl⟩
  | int v => exact ⟨_, rfl⟩
  | bigInt v => exact ⟨_, rfl⟩
  | varChar v => exact ⟨_, rfl⟩
  | int128 v => exact ⟨_, rfl⟩
  | decimal75 p s v => exact ⟨_, rfl⟩
  | scalar v => exact ⟨_, rfl⟩
  | timestampTZ u z v => exact ⟨_, rfl⟩

theorem encTableEntries_some_of_known {l : List (Ident × OwnedColumn)}
    (h : ∀ kv ∈ l, kv.2 ≠ OwnedColumn.unknownVariant) :
    ∃ body, encTableEntries l = some body := by
  induction l with
  | nil => exact ⟨[], rfl⟩
  | cons kv rest ih =>
    obtain ⟨e, he⟩ : ∃ e, encTableEntry (kv.1, kv.2) = some e :=
      encTableEntry_some_of_known (h kv (List.mem_cons_self _ _))
    obtain ⟨es, hes⟩ := ih fun kv2 hkv2 => h kv2 (List.mem_cons_of_mem _ hkv2)
    refine ⟨e ++ es, ?_⟩
    unfold encTableEntries
    rw [show encTableEntry kv = some e from he, hes]

theorem encTableEntries_none {l : List (Ident × OwnedColumn)}
    (h : ∃ kv ∈ l, kv.2 = OwnedColumn.unknownVariant) :
    encTableEntries l = none := by
  induction l with
  | nil =>
    obtain ⟨kv, hkv, _⟩ := h
    simp at hkv
  | cons kv0 rest ih =>
    obtain ⟨kv, hkv, hu⟩ := h
    rcases List.mem_cons.mp hkv with rfl | hmem
    · have he : encTableEntry kv = none := by
        unfold encTableEntry
        rw [hu]
        rfl
      unfold encTableEntries
      rw [he]
    · cases he : encTableEntry kv0 with
      | none =>
        unfold encTableEntries
        rw [he]
      | some e =>
        unfold encTableEntries
        rw [he, ih ⟨kv, hmem, hu⟩]

/-! ## Claim theorems -/

/-- Claim C1, counterexample: the claim says that for every column
reference the engine looks up a commitment for the reference's
`(table, column)` key and returns `InvalidInput` when it is absent,
never invoking the delegate.  Here the plan references `(t, a)`, the
commitment map holds no commitment for the `(t, a)` key (its
commitment for table `t` covers only column `b`), yet `verify_proof`
runs to completion and returns `Ok(())` through an accepting
delegate: only the table-level lookup is checked. -/
theorem C1_missing_column_not_rejected :
    lookupTableColumnCommitment commsOnlyB tableT identA = none ∧
    verify_proof okCV [] planRefA commsOnlyB qdEmpty [] = .ok () := by
  constructor
  · rfl
  · rfl

/-- Claim C1 (amended): for every column reference the engine looks up
the commitment map entry for the reference's *table*; if that table
entry is absent the result is `InvalidInput` for every delegate (so
the delegate is never invoked).  In particular a plan referencing at
least one column against an empty commitment map yields
`InvalidInput`.  (A table commitment that merely lacks the referenced
column's metadata is not rejected — see the counterexample.) -/
theorem C1_missing_table_invalid_input :
    (∀ (cv : CryptoVerifier) (proof : Proof) (expr : DynProofPlan)
        (m : QueryCommitments) (qd : QueryData) (setup : VerifierSetupArg),
      (∃ c ∈ expr.get_column_references, qcGet m c.table_ref = none) →
      verify_proof cv proof expr m qd setup = .error .InvalidInput) ∧
    (∀ (cv : CryptoVerifier) (proof : Proof) (expr : DynProofPlan)
        (qd : QueryData) (setup : VerifierSetupArg),
      expr.get_column_references ≠ [] →
      verify_proof cv proof expr [] qd setup = .error .InvalidInput) := by
  constructor
  · intro cv proof expr m qd setup h
    unfold verify_proof
    rw [crossCheck_missing_table h]
  · intro cv proof expr qd setup h
    cases hrefs : expr.get_column_references with
    | nil => exact absurd hrefs h
    | cons c rest =>
      unfold verify_proof
      rw [crossCheck_missing_table
        ⟨c, by rw [hrefs]; exact List.mem_cons_self _ _,
          (rfl : qcGet ([] : QueryCommitments) c.table_ref = none)⟩]

/-- Claim C1 witness: the amended theorem applied to the one-reference
plan and the empty commitment map. -/
theorem C1_witness :
    (∃ c ∈ planRefA.get_column_references,
      qcGet ([] : QueryCommitments) c.table_ref = none) ∧
    verify_proof okCV [] planRefA [] qdEmpty [] = .error .InvalidInput := by
  have hex : ∃ c ∈ planRefA.get_column_references,
      qcGet ([] : QueryCommitments) c.table_ref = none :=
    ⟨⟨tableT, identA, .bigInt⟩, List.mem_cons_self _ _, rfl⟩
  exact ⟨hex, C1_missing_table_invalid_input.1 okCV [] planRefA [] qdEmpty [] hex⟩

/-- Claim C2: once the cross-check has passed, if the external
verifier accepts and returns a computed result, `verify_proof` returns
`Ok(())` exactly when the computed table equals the claimed table and
the computed hash equals the claimed hash; any mismatch yields
`VerificationFailed`, and a rejection by the external verifier also
yields `VerificationFailed`. -/
theorem C2_post_check (cv : CryptoVerifier) (proof : Proof)
    (expr : DynProofPlan) (m : QueryCommitments) (qd : QueryData)
    (setup : VerifierSetupArg)
    (hcc : crossCheck expr.get_column_references m = .ok ()) :
    (∀ result, cv proof expr m setup = some result →
      ((verify_proof cv proof expr m qd setup = .ok ()) ↔
        (result.table = qd.table ∧
          result.verification_hash = qd.verification_hash)) ∧
      ((result.table ≠ qd.table ∨
          result.verification_hash ≠ qd.verification_hash) →
        verify_proof cv proof expr m qd setup = .error .VerificationFailed)) ∧
    (cv proof expr m setup = none →
      verify_proof cv proof expr m qd setup = .error .VerificationFailed) := by
  have hmain : ∀ result, cv proof expr m setup = some result →
      verify_proof cv proof expr m qd setup =
        (if result.table ≠ qd.table ∨
            result.verification_hash ≠ qd.verification_hash
          then .error .VerificationFailed else .ok ()) := by
    intro result hres
    unfold verify_proof
    simp only [hcc, hres]
  refine ⟨?_, ?_⟩
  · intro result hres
    refine ⟨?_, ?_⟩
    · rw [hmain result hres]
      constructor
      · intro hok
        by_contra hcon
        rw [if_pos (by tauto)] at hok
        exact absurd hok (by simp)
      · intro hand
        rw [if_neg (by tauto)]
    · intro hmis
      rw [hmain result hres, if_pos hmis]
  · intro hnone
    unfold verify_proof
    simp only [hcc, hnone]

/-- Claim C2 witness: the theorem applied to the trivial plan, the
empty commitment map and the accepting delegate. -/
theorem C2_witness :
    crossCheck trivialPlan.get_column_references [] = .ok () ∧
    ((verify_proof okCV [] trivialPlan [] qdEmpty [] = .ok ()) ↔
      (qdEmpty.table = qdEmpty.table ∧
        qdEmpty.verification_hash = qdEmpty.verification_hash)) :=
  ⟨rfl, ((C2_post_check okCV [] trivialPlan [] qdEmpty [] rfl).1 qdEmpty rfl).1⟩

/-- Claim C5: when the commitment for the referenced table is present
and carries column-type metadata for the referenced column, a declared
type differing from the type the plan expects makes `verify_proof`
return `InvalidInput` (for every delegate, which is therefore not
consulted). -/
theorem C5_declared_type_mismatch (cv : CryptoVerifier) (proof : Proof)
    (expr : DynProofPlan) (m : QueryCommitments) (qd : QueryData)
    (setup : VerifierSetupArg) (c : ColumnRef) (tc : TableCommitment)
    (md : ColumnCommitmentMetadata)
    (hc : c ∈ expr.get_column_references)
    (h1 : qcGet m c.table_ref = some tc)
    (h2 : tc.column_commitments.get_metadata c.column_id = some md)
    (h3 : md.column_type ≠ c.column_type) :
    verify_proof cv proof expr m qd setup = .error .InvalidInput := by
  unfold verify_proof
  rw [crossCheck_type_mismatch hc h1 h2 h3]

/-- Claim C5 witness: the plan expects `BigInt` for `(t, a)` while the
commitment metadata declares `VarChar`. -/
theorem C5_witness :
    (⟨tableT, identA, .bigInt⟩ : ColumnRef) ∈ planRefA.get_column_references ∧
    verify_proof okCV [] planRefA commsAVarChar qdEmpty [] =
      .error .InvalidInput := by
  refine ⟨List.mem_cons_self _ _, ?_⟩
  exact C5_declared_type_mismatch okCV [] planRefA commsAVarChar qdEmpty []
    ⟨tableT, identA, .bigInt⟩ ⟨⟨[], [(identA, ⟨.varChar, []⟩)]⟩, 0, 4⟩
    ⟨.varChar, []⟩ (List.mem_cons_self _ _) rfl rfl (by decide)

theorem wfVK_vk0 : wfVK vk0 := by
  have hGT : (0 : Nat) < 256 ^ GT_SERIALIZED_SIZE := pow_pos (by norm_num) _
  have hG1 : (0 : Nat) < 256 ^ G1_AFFINE_SERIALIZED_SIZE := pow_pos (by norm_num) _
  have hG2 : (0 : Nat) < 256 ^ G2_AFFINE_SERIALIZED_SIZE := pow_pos (by norm_num) _
  have hvec : wfGTVec (List.replicate 1 0) := by
    constructor
    · norm_num
    · intro x hx
      rw [List.eq_of_mem_replicate hx]
      exact hGT
  exact ⟨hvec, hvec, hvec, hvec, hvec, hG1, hG1, hG2, hG2, hG2, hGT,
    (by norm_num : (0 : Nat) < 18446744073709551616),
    (by norm_num : (0 : Nat) < 18446744073709551616)⟩

/-- Claim C3, counterexample: the claim says a buffer whose length is
not exactly `serialized_size` for the embedded sizing parameter is
rejected with `InvalidVerificationKey` by a length check performed
before deserialization.  Appending one trailing byte to a serialized
key gives a buffer of the wrong length that `try_from` nevertheless
accepts: deserialization consumes only a prefix and no length
validation exists. -/
theorem C3_counterexample :
    (vk0.to_bytes ++ [0]).length ≠
      VerificationKey.serialized_size vk0.setup.max_nu ∧
    VerificationKey.try_from (vk0.to_bytes ++ [0]) = .ok vk0 := by
  constructor
  · rw [List.length_append,
      show vk0.to_bytes.length = VerificationKey.serialized_size 0 from
        toBytes_new_length ⟨0, 0, 0, 0⟩ 0]
    decide
  · exact vkTryFrom_trailing wfVK_vk0 [0]

/-- Claim C3 (amended): `VerificationKey::try_from` performs no length
validation; it runs the (unchecked) deserializer directly on the
buffer and maps every failure to `InvalidVerificationKey`.  A
serialized key truncated by even one byte fails (the deserializer runs
out of bytes) with `InvalidVerificationKey`; a serialized key with
trailing extra bytes is accepted, the extra bytes being ignored. -/
theorem C3_no_length_gate :
    (∀ vk : VerificationKey, wfVK vk → ∀ extra : List Nat,
      VerificationKey.try_from (vk.to_bytes ++ extra) = .ok vk) ∧
    (∀ vk : VerificationKey, wfVK vk → ∀ n : Nat, n < vk.to_bytes.length →
      VerificationKey.try_from (vk.to_bytes.take n) =
        .error .InvalidVerificationKey) :=
  ⟨fun _ h extra => vkTryFrom_trailing h extra,
   fun _ h _ hn => vkTryFrom_truncated h hn⟩

/-- Claim C3 witness: the amended theorem applied to the sample key,
with one trailing byte and with a one-byte truncation. -/
theorem C3_witness :
    wfVK vk0 ∧
    VerificationKey.try_from (vk0.to_bytes ++ [0]) = .ok vk0 ∧
    VerificationKey.try_from
        (vk0.to_bytes.take (VerificationKey.serialized_size 0 - 1)) =
      .error .InvalidVerificationKey := by
  have hwf : wfVK vk0 := wfVK_vk0
  have hlen : vk0.to_bytes.length = VerificationKey.serialized_size 0 :=
    toBytes_new_length ⟨0, 0, 0, 0⟩ 0
  refine ⟨hwf, C3_no_length_gate.1 vk0 hwf [0], ?_⟩
  exact C3_no_length_gate.2 vk0 hwf _ (by rw [hlen]; decide)

/-- Claim C8: for every sizing parameter, `serialized_size(max_nu)` —
a pure closed-form function of `max_nu` — equals the exact byte length
of `to_bytes()` of every key constructed by `VerificationKey::new`
from public parameters with that `max_nu`. -/
theorem C8_serialized_size_exact (params : PublicParameters) (sigma : Nat) :
    (VerificationKey.new params sigma).to_bytes.length =
      VerificationKey.serialized_size params.max_nu :=
  toBytes_new_length params sigma

/-- Claim C6: for every constructible bundle (well-formed plan,
commitments, table of the nine supported variants, 32-byte hash),
`from_bytes` applied to the output of `into_bytes` succeeds and
returns a bundle equal to the original — plan, commitments, result
table (including column order, types, parameters and values) and
verification hash. -/
theorem C6_roundtrip (b : DoryPublicInput) (h : wfBundle b) :
    ∃ bs, b.into_bytes = .ok bs ∧ DoryPublicInput.from_bytes bs = some b := by
  obtain ⟨body, hbody⟩ := encTableEntries_some
    (fun kv hkv => (h.2.2.1.2.2.2 kv hkv).2)
  refine ⟨encPlan b.expr ++ encQueryCommitments b.commitments ++
    encU32 b.query_data.table.length ++ body ++
    b.query_data.verification_hash, ?_, ?_⟩
  · unfold DoryPublicInput.into_bytes
    rw [hbody]
  · unfold DoryPublicInput.from_bytes
    rw [pubsReader_run h hbody]

/-- Claim C6 witness: the round trip on a concrete bundle. -/
theorem C6_witness :
    wfBundle sampleBundle ∧
    ∃ bs, sampleBundle.into_bytes = .ok bs ∧
      DoryPublicInput.from_bytes bs = some sampleBundle :=
  ⟨by decide, C6_roundtrip sampleBundle (by decide)⟩

/-- Claim C4, counterexample: the claim says both decode paths reject
a serialized table with two entries sharing one identifier.  On the
custom bincode path, the byte string declaring two entries named `a`
decodes successfully: `OwnedTable::try_from_iter` silently collapses
the duplicate (the later `[false]` column overwrites the earlier
`[true]` one) and a table is produced. -/
theorem C4_duplicate_silently_overwritten :
    DoryPublicInput.from_bytes dupTableBytes =
      some ⟨trivialPlan, [], ⟨[(identA, OwnedColumn.boolean [false])],
        List.replicate 32 0⟩⟩ := by
  decide

/-- Claim C4 (amended): on the serde-derived `OwnedTableDef` path,
decoding a table with two entries sharing one identifier fails with a
decode error (`MapPreventDuplicates`); the custom bincode path in
`DoryPublicInput::from_bytes` does not reject duplicates — the later
entry silently overwrites the earlier one and decoding succeeds when
the merged columns share a length. -/
theorem C4_duplicate_rejection :
    (∀ entries : List (Ident × OwnedColumn),
      ¬ (entries.map Prod.fst).Nodup →
      decodeOwnedTableDef entries = .error .duplicateField) ∧
    DoryPublicInput.from_bytes dupTableBytes =
      some ⟨trivialPlan, [], ⟨[(identA, OwnedColumn.boolean [false])],
        List.replicate 32 0⟩⟩ := by
  constructor
  · intro entries h
    unfold decodeOwnedTableDef
    rw [if_neg h]
  · decide

/-- Claim C4 witness: the serde path rejecting a duplicated
identifier. -/
theorem C4_witness :
    ¬ ((([(identA, OwnedColumn.boolean [true]),
        (identA, OwnedColumn.boolean [false])] :
          List (Ident × OwnedColumn)).map Prod.fst).Nodup) ∧
    decodeOwnedTableDef [(identA, OwnedColumn.boolean [true]),
      (identA, OwnedColumn.boolean [false])] = .error .duplicateField :=
  ⟨by decide, C4_duplicate_rejection.1 _ (by decide)⟩

/-- Claim C7: every table accepted by `OwnedTable::try_new`,
`OwnedTable::try_from_iter`, the custom `from_bytes` path or the serde
path has columns of one common length; construction from columns of
differing lengths fails (`InvalidInput` on the serde path), and no
partial table is produced (`try_new` returns its input unchanged or
nothing). -/
theorem C7_column_lengths :
    (∀ m t : OwnedTable, OwnedTable.tryNew m = some t →
      t = m ∧ ∀ kv1 ∈ t, ∀ kv2 ∈ t, numRows kv1.2 = numRows kv2.2) ∧
    (∀ (l : List (Ident × OwnedColumn)) (t : OwnedTable),
      OwnedTable.tryFromIter l = some t →
      ∀ kv1 ∈ t, ∀ kv2 ∈ t, numRows kv1.2 = numRows kv2.2) ∧
    (∀ (bytes : List Nat) (b : DoryPublicInput),
      DoryPublicInput.from_bytes bytes = some b →
      ∀ kv1 ∈ b.query_data.table, ∀ kv2 ∈ b.query_data.table,
        numRows kv1.2 = numRows kv2.2) ∧
    (∀ m : OwnedTable,
      ¬ (∀ kv1 ∈ m, ∀ kv2 ∈ m, numRows kv1.2 = numRows kv2.2) →
      OwnedTable.tryNew m = none) ∧
    (∀ entries : List (Ident × OwnedColumn),
      (entries.map Prod.fst).Nodup →
      ¬ (∀ kv1 ∈ entries, ∀ kv2 ∈ entries, numRows kv1.2 = numRows kv2.2) →
      decodeOwnedTableDef entries = .error (.custom .InvalidInput)) := by
  have hnewfail : ∀ m : OwnedTable,
      ¬ (∀ kv1 ∈ m, ∀ kv2 ∈ m, numRows kv1.2 = numRows kv2.2) →
      OwnedTable.tryNew m = none := by
    intro m h
    refine tryNew_fails ?_
    cases hb : tableLengthsOk m with
    | false => rfl
    | true => exact absurd ((tableLengthsOk_iff m).mp hb) h
  refine ⟨?_, ?_, ?_, hnewfail, ?_⟩
  · intro m t h
    obtain ⟨hok, heq⟩ := tryNew_lengthsOk h
    exact ⟨heq, (tableLengthsOk_iff t).mp hok⟩
  · intro l t h
    exact (tableLengthsOk_iff t).mp (tryFromIter_lengthsOk h)
  · intro bytes b h
    exact (tableLengthsOk_iff _).mp (from_bytes_lengthsOk h)
  · intro entries hnd hne
    unfold decodeOwnedTableDef
    rw [if_pos hnd, imFromIter_nodup hnd, hnewfail entries hne]

/-- Claim C7 witness: a two-column table with lengths 2 and 1 is
rejected by `try_new` and by the serde path. -/
theorem C7_witness :
    ¬ (∀ kv1 ∈ raggedTable, ∀ kv2 ∈ raggedTable,
      numRows kv1.2 = numRows kv2.2) ∧
    OwnedTable.tryNew raggedTable = none ∧
    decodeOwnedTableDef raggedTable = .error (.custom .InvalidInput) :=
  ⟨by decide, C7_column_lengths.2.2.2.1 raggedTable (by decide),
    C7_column_lengths.2.2.2.2 raggedTable (by decide) (by decide)⟩

/-- Claim C9: the declared `u32` column count read from the buffer
bounds the table-decode loop of `from_bytes`: at most that many
entries are decoded (the loop stops at the count even when bytes
remain; a shortfall happens only at the end of the stream), and any
successfully decoded bundle went through these stages with its table
no larger than the declared count. -/
theorem C9_declared_count_bounds :
    (∀ (count : Nat) (s : List Nat) (entries : List (Ident × OwnedColumn))
        (rest : List Nat),
      readTableEntries count s = some (entries, rest) →
      entries.length ≤ count ∧ (entries.length < count → rest = [])) ∧
    (∀ (bytes : List Nat) (b : DoryPublicInput),
      DoryPublicInput.from_bytes bytes = some b →
      ∃ plan comms count s1 s2 s3 entries rest,
        readPlan bytes = some (plan, s1) ∧
        readQueryCommitments s1 = some (comms, s2) ∧
        readU32 s2 = some (count, s3) ∧
        readTableEntries count s3 = some (entries, rest) ∧
        entries.length ≤ count ∧
        b.query_data.table.length ≤ count) := by
  constructor
  · exact fun _ _ _ _ h => readTableEntries_bound h
  · intro bytes b h
    obtain ⟨plan, comms, count, s1, s2, s3, entries, rest, hash, rest2,
      e1, e2, e3, e4, e5, e6, e7⟩ := from_bytes_inv h
    have hle := (readTableEntries_bound e4).1
    refine ⟨plan, comms, count, s1, s2, s3, entries, rest,
      e1, e2, e3, e4, hle, ?_⟩
    have hbt : b.query_data.table = imFromIter entries := by rw [e7]
    rw [hbt]
    exact le_trans (imFromIter_length_le entries) hle

/-- Claim C9 witness: with declared count 0 the loop decodes nothing
and stops even though bytes remain. -/
theorem C9_witness :
    readTableEntries 0 [7] = some ([], [7]) ∧
    (([] : List (Ident × OwnedColumn)).length ≤ 0 ∧
      (([] : List (Ident × OwnedColumn)).length < 0 → [7] = ([] : List Nat))) :=
  ⟨rfl, C9_declared_count_bounds.1 0 [7] [] [7] rfl⟩

/-- Claim C10: `into_bytes` returns `Ok` for every bundle whose table
holds only the nine supported variants, and returns
`Err(InvalidInput)` — rather than panicking — when the table holds a
column of any other variant. -/
theorem C10_into_bytes_totality :
    (∀ b : DoryPublicInput,
      (∀ kv ∈ b.query_data.table, kv.2 ≠ OwnedColumn.unknownVariant) →
      ∃ bs, b.into_bytes = .ok bs) ∧
    (∀ b : DoryPublicInput,
      (∃ kv ∈ b.query_data.table, kv.2 = OwnedColumn.unknownVariant) →
      b.into_bytes = .error .InvalidInput) := by
  constructor
  · intro b h
    obtain ⟨body, hbody⟩ := encTableEntries_some_of_known h
    refine ⟨encPlan b.expr ++ encQueryCommitments b.commitments ++
      encU32 b.query_data.table.length ++ body ++
      b.query_data.verification_hash, ?_⟩
    unfold DoryPublicInput.into_bytes
    rw [hbody]
  · intro b h
    unfold DoryPublicInput.into_bytes
    rw [encTableEntries_none h]

/-- Claim C10 witness: the totality theorem applied to a supported
bundle and to a bundle holding an unsupported variant. -/
theorem C10_witness :
    (∀ kv ∈ sampleBundle.query_data.table,
      kv.2 ≠ OwnedColumn.unknownVariant) ∧
    (∃ bs, sampleBundle.into_bytes = .ok bs) ∧
    (∃ kv ∈ unknownBundle.query_data.table,
      kv.2 = OwnedColumn.unknownVariant) ∧
    unknownBundle.into_bytes = .error .InvalidInput :=
  ⟨by decide, C10_into_bytes_totality.1 sampleBundle (by decide),
    by decide, C10_into_bytes_totality.2 unknownBundle (by decide)⟩

end PoSQL

